import Mathlib

/-!
Verification development for a Chromium-profile privacy cleaner.

The repository holds two Python variants of the tool:
* `Clean.py` — option-gated cleaner (`remove_path`, `clear_sqlite_table`,
  `overwrite_and_remove`, `clean_profile`, `run_clean`), with dry-run,
  shred, and password-removal gating;
* `Clean2.py` — an unconditional variant (modelled in namespace `Clean2`).

The embedding below represents the filesystem as an association list from
component paths to entries (regular file with byte content, or directory).
A run threads a state holding the filesystem, an event trace recording
every destructive effect (byte overwrite, fsync, unlink, recursive tree
removal, SQL statement-list execution, process kills), and the printed
log.  Nondeterminism of the outside world (random bytes from `os.urandom`,
`OSError` from `os.remove`/`shutil.rmtree`, failures of the overwrite
block, `sqlite3` connect/execute failures, process-termination failures)
is captured by an explicit environment of oracles, so theorems quantify
over every behaviour of the external world that the source code guards.
-/

set_option maxRecDepth 20000

/-- A filesystem path, as its list of components
(`os.path.join` of the profile directory and an item name). -/
abbrev FsPath := List String

/-- A filesystem entry: a regular file with its byte content, or a directory. -/
inductive Entry where
  | file (content : List Nat)
  | dir
deriving DecidableEq, Repr

/-- The filesystem: an association list from paths to entries
(first binding wins). -/
abbrev FS := List (FsPath × Entry)

/-- Destructive effects performed by a run, recorded in order. -/
inductive Ev where
  /-- Bytes written over a file's content (the shred overwrite). -/
  | write (p : FsPath) (bytes : List Nat)
  /-- `os.fsync` durability flush after an overwrite pass. -/
  | fsync (p : FsPath)
  /-- `os.remove` of a regular file. -/
  | unlink (p : FsPath)
  /-- `shutil.rmtree` of a directory tree. -/
  | rmtreeE (p : FsPath)
  /-- Execution of an ordered SQL statement list within one
  `sqlite3` connection against a database file. -/
  | stmts (p : FsPath) (qs : List String)
  /-- `psutil` graceful process termination. -/
  | terminateP (pid : Nat)
  /-- `psutil` forced process kill. -/
  | killP (pid : Nat)
  /-- Fallback `taskkill`/`pkill` by process name. -/
  | killByName (n : String)
deriving DecidableEq, Repr

/-- A running process visible to `psutil.process_iter`. -/
structure Proc where
  pid : Nat
  name : String
deriving DecidableEq, Repr

/-- State threaded through a run: the filesystem, the trace of destructive
events, and the lines printed through `user_notify`. -/
structure St where
  fs : FS
  evs : List Ev
  log : List String
deriving DecidableEq, Repr

/-- The external world: `os.urandom` bytes (per pass and byte index),
failure oracles for each fallible OS/library primitive (a failing
primitive raises, mutating nothing), the abstract effect of running a
statement list on a database file's bytes, the per-browser user-data
root, and the process table. -/
structure Env where
  rnd : Nat → Nat → Nat
  openFails : FsPath → Bool
  removeFails : FsPath → Bool
  rmtreeFails : FsPath → Bool
  connectFails : FsPath → Bool
  dbApply : List String → List Nat → List Nat
  basePath : String → FsPath
  procs : List Proc
  psutilAvailable : Bool
  terminateFails : Nat → Bool
  staysAlive : Nat → Bool

/-- First-match lookup in the filesystem (`os.path.exists` is
`(lookupFS fs p).isSome`). -/
def lookupFS : FS → FsPath → Option Entry
  | [], _ => none
  | (k, v) :: rest, p => if k = p then some v else lookupFS rest p

/-- Remove every binding of one exact path (`os.remove`). -/
def eraseKey : FS → FsPath → FS
  | [], _ => []
  | (k, v) :: rest, p => if k = p then eraseKey rest p else (k, v) :: eraseKey rest p

/-- `pathLe b q` holds when `b` is an ancestor-or-self of `q`
(component-wise list-prefix test). -/
def pathLe : FsPath → FsPath → Bool
  | [], _ => true
  | _ :: _, [] => false
  | a :: as, b :: bs => a == b && pathLe as bs

/-- Remove a whole subtree (`shutil.rmtree`). -/
def eraseTree : FS → FsPath → FS
  | [], _ => []
  | (k, v) :: rest, p => if pathLe p k then eraseTree rest p else (k, v) :: eraseTree rest p

/-- Replace the entry at a path (in-place byte rewrite of a file). -/
def updateFS (fs : FS) (p : FsPath) (v : Entry) : FS :=
  (p, v) :: eraseKey fs p

/-- `os.path.isdir`. -/
def isDir (fs : FS) (p : FsPath) : Bool :=
  match lookupFS fs p with
  | some Entry.dir => true
  | _ => false

/-- Split a character list on `/`. -/
def splitChars : List Char → List Char → List (List Char)
  | [], acc => [acc.reverse]
  | c :: cs, acc =>
      if c == '/' then acc.reverse :: splitChars cs [] else splitChars cs (c :: acc)

/-- The `/`-separated components of a relative item name. -/
def splitSlash (s : String) : List String :=
  (splitChars s.toList []).map (fun l => String.mk l)

/-- `os.path.join profile name`, splitting a relative name on `/`
(so `"Service Worker/CacheStorage"` is two components deep). -/
def pjoin (prof : FsPath) (n : String) : FsPath :=
  prof ++ splitSlash n

/-- Render a path for a log message. -/
def pstr (p : FsPath) : String := String.intercalate "/" p

/-- `user_notify`: append a line to the printed log. -/
def notify (st : St) (m : String) : St :=
  { st with log := st.log ++ [m] }

/-- `dict.get(key, default)` over a literal Python dict. -/
def dictGet {α : Type} : List (String × α) → String → α → α
  | [], _, d => d
  | (k, v) :: rest, n, d => if k = n then v else dictGet rest n d

/-- `os.urandom n`: exactly `n` bytes drawn from the randomness oracle. -/
def urandomBytes (r : Nat → Nat) (n : Nat) : List Nat :=
  (List.range n).map r

/-- The write/flush/fsync events of the shred loop, one pair per pass,
in pass order. -/
def passEvents (rnd : Nat → Nat → Nat) (p : FsPath) (size : Nat) : Nat → List Ev
  | 0 => []
  | k + 1 => passEvents rnd p size k ++
      [Ev.write p (urandomBytes (rnd k) size), Ev.fsync p]

/-- File content after the shred loop: the bytes of the last pass
(the original content when there are zero passes). -/
def finalBytes (rnd : Nat → Nat → Nat) (c : List Nat) : Nat → List Nat
  | 0 => c
  | k + 1 => urandomBytes (rnd k) c.length

/-- `os.remove path`: unlinks a regular file; raises (`none`) on a
missing path, a directory, or when the OS reports an error. -/
def osRemove (env : Env) (st : St) (p : FsPath) : Option St :=
  match lookupFS st.fs p with
  | some (Entry.file _) =>
      if env.removeFails p then none
      else some { st with fs := eraseKey st.fs p, evs := st.evs ++ [Ev.unlink p] }
  | _ => none

/-- `overwrite_and_remove(path, passes=1)` of `Clean.py`: overwrite the
file's whole byte range with `os.urandom` once per pass, fsync, then
`os.remove`; on any exception, fall back to a plain `os.remove`; the
outer `except` makes the function total — it always returns a `Bool`. -/
def overwrite_and_remove (env : Env) (st : St) (p : FsPath) (passes : Nat) : Bool × St :=
  match lookupFS st.fs p with
  | some (Entry.file c) =>
      if env.openFails p then
        match osRemove env st p with
        | some st' => (true, st')
        | none => (false, st)
      else
        let st1 : St := { st with
          fs := updateFS st.fs p (Entry.file (finalBytes env.rnd c passes)),
          evs := st.evs ++ passEvents env.rnd p c.length passes }
        match osRemove env st1 p with
        | some st' => (true, st')
        | none => (false, st1)
  | _ =>
      match osRemove env st p with
      | some st' => (true, st')
      | none => (false, st)

/-- `remove_path(path, dry_run, shred)` of `Clean.py`: missing target
returns `False`; dry run only reports; a regular file is unlinked
(shredded first when `shred`, falling back to plain deletion); any other
existing target is removed as a recursive tree; every exception is caught
and reported as `False`. -/
def remove_path (env : Env) (st : St) (p : FsPath) (dry shred : Bool) : Bool × St :=
  match lookupFS st.fs p with
  | none => (false, st)
  | some e =>
      if dry then (true, notify st ("[DRY RUN] Would remove: " ++ pstr p))
      else
        match e with
        | Entry.file _ =>
            if shred then
              match overwrite_and_remove env st p 1 with
              | (true, st1) => (true, notify st1 ("Removed: " ++ pstr p))
              | (false, st1) =>
                  match osRemove env st1 p with
                  | some st2 => (true, notify st2 ("Removed: " ++ pstr p))
                  | none => (false, notify st1 ("Failed to remove " ++ pstr p))
            else
              match osRemove env st p with
              | some st1 => (true, notify st1 ("Removed: " ++ pstr p))
              | none => (false, notify st ("Failed to remove " ++ pstr p))
        | Entry.dir =>
            if env.rmtreeFails p then (false, notify st ("Failed to remove " ++ pstr p))
            else
              (true, notify
                { st with fs := eraseTree st.fs p, evs := st.evs ++ [Ev.rmtreeE p] }
                ("Removed: " ++ pstr p))

/-- `clear_sqlite_table(db_path, queries, dry_run)` of `Clean.py`:
missing database returns `False`; dry run only reports; otherwise one
connection executes the statement list in order and commits (modelled as
one `Ev.stmts` event and an abstract byte transformation of the file);
a locked database or any other failure is caught and returns `False`. -/
def clear_sqlite_table (env : Env) (st : St) (p : FsPath) (qs : List String) (dry : Bool) :
    Bool × St :=
  match lookupFS st.fs p with
  | none => (false, st)
  | some e =>
      if dry then (true, notify st ("[DRY RUN] Would execute cleanup queries on DB: " ++ pstr p))
      else
        match e with
        | Entry.file c =>
            if env.connectFails p then
              (false, notify st ("DB locked or operation failed: " ++ pstr p))
            else
              (true, notify
                { st with
                  fs := updateFS st.fs p (Entry.file (env.dbApply qs c)),
                  evs := st.evs ++ [Ev.stmts p qs] }
                ("Run cleanup queries on " ++ pstr p))
        | Entry.dir => (false, notify st ("Error cleaning DB " ++ pstr p))

/-- The cleaning options of `Clean.py` (`options` dict). -/
structure Options where
  dry_run : Bool
  shred : Bool
  remove_passwords : Bool
  verbose : Bool
deriving DecidableEq, Repr

/-- Per-profile result record: cleaned targets and failed targets, in
processing order. -/
structure Results where
  deleted : List FsPath
  failed : List FsPath
deriving DecidableEq, Repr

/-- `COMMON_ITEMS` of `Clean.py`: cache and telemetry entries removed
outright. -/
def COMMON_ITEMS : List String :=
  ["Cache", "Code Cache", "GPUCache", "Service Worker", "Service Worker/CacheStorage",
   "IndexedDB", "Local Storage", "Session Storage", "Sessions", "Shortcuts",
   "Crashpad", "Crash Reports", "Safe Browsing",
   "Top Sites", "Favicons", "History Provider Cache", "Thumbnails"]

/-- `DB_CLEAN_QUERIES` of `Clean.py`: per-database ordered statement lists. -/
def DB_CLEAN_QUERIES : List (String × List String) :=
  [("History",
     ["DELETE FROM urls;", "DELETE FROM visits;", "DELETE FROM downloads;", "VACUUM;"]),
   ("Cookies", ["DELETE FROM cookies;", "VACUUM;"]),
   ("Web Data", ["DELETE FROM autofill;", "DELETE FROM autofill_profiles;", "VACUUM;"]),
   ("Login Data", ["DELETE FROM logins;", "VACUUM;"])]

/-- `DB_CLEAN_QUERIES.get(dbname, [])`. -/
def dbQueries (n : String) : List String :=
  dictGet DB_CLEAN_QUERIES n []

/-- The database file names of `clean_profile`, in dict insertion order. -/
def dbNames : List String :=
  ["History", "Cookies", "Web Data", "Login Data", "Network Action Predictor"]

/-- The loose single-purpose files of `clean_profile`. -/
def loose_files : List String :=
  ["Cookies-journal", "Current Session", "Current Tabs", "Last Session", "Last Tabs",
   "Preferences", "Secure Preferences", "Visited Links"]

/-- Step 1/3 of `clean_profile`: for each relative name that exists,
remove it and record the outcome. -/
def removeItems (prof : FsPath) (opts : Options) (env : Env) :
    List String → Results → St → Results × St
  | [], res, st => (res, st)
  | n :: ns, res, st =>
      let p := pjoin prof n
      if (lookupFS st.fs p).isSome then
        let r := remove_path env st p opts.dry_run opts.shred
        let res' := if r.1 then { res with deleted := res.deleted ++ [p] }
                    else { res with failed := res.failed ++ [p] }
        removeItems prof opts env ns res' r.2
      else
        removeItems prof opts env ns res st

/-- Step 2 of `clean_profile`: for each database file that exists, skip
`Login Data` (with a notice) unless `remove_passwords`; otherwise sanitize
it with its statement list, or remove the file outright when no statements
are defined for it. -/
def processDbs (prof : FsPath) (opts : Options) (env : Env) :
    List String → Results → St → Results × St
  | [], res, st => (res, st)
  | n :: ns, res, st =>
      let p := pjoin prof n
      if (lookupFS st.fs p).isSome then
        if n == "Login Data" && !opts.remove_passwords then
          processDbs prof opts env ns res
            (notify st "Skipping saved passwords DB (Login Data). Use --remove-passwords to remove.")
        else
          let qs := dbQueries n
          if qs.isEmpty then
            let r := remove_path env st p opts.dry_run opts.shred
            let res' := if r.1 then { res with deleted := res.deleted ++ [p] }
                        else { res with failed := res.failed ++ [p] }
            processDbs prof opts env ns res' r.2
          else
            let r := clear_sqlite_table env st p qs opts.dry_run
            let res' := if r.1 then { res with deleted := res.deleted ++ [p] }
                        else { res with failed := res.failed ++ [p] }
            processDbs prof opts env ns res' r.2
      else
        processDbs prof opts env ns res st

/-- `clean_profile(profile_path, options)` of `Clean.py`: common items,
then the databases, then the loose files, accumulating one `Results`. -/
def clean_profile (prof : FsPath) (opts : Options) (env : Env) (st : St) : Results × St :=
  let r1 := removeItems prof opts env COMMON_ITEMS ⟨[], []⟩ st
  let r2 := processDbs prof opts env dbNames r1.1 r1.2
  removeItems prof opts env loose_files r2.1 r2.2

/-- `BROWSER_PROCS` of `Clean.py`. -/
def BROWSER_PROCS : List (String × List String) :=
  [("chrome", ["chrome", "chrome.exe", "Google Chrome"]),
   ("edge", ["msedge", "msedge.exe", "Microsoft Edge"])]

/-- Does `hay` start with `needle` (character lists)? -/
def charsStart : List Char → List Char → Bool
  | _, [] => true
  | [], _ :: _ => false
  | h :: hs, n :: ns => h == n && charsStart hs ns

/-- Does `needle` occur inside `hay` (character lists)? -/
def charsHas : List Char → List Char → Bool
  | [], needle => needle.isEmpty
  | h :: hs, needle => charsStart (h :: hs) needle || charsHas hs needle

/-- Python's `needle in hay` substring test. -/
def strHas (hay needle : String) : Bool :=
  charsHas hay.toList needle.toList

/-- `any(n.lower() in pname.lower() for n in names)`. -/
def procMatch (names : List String) (pr : Proc) : Bool :=
  names.any (fun n => strHas pr.name.toLower n.toLower)

/-- The per-process loop of `kill_browser_processes` (psutil mode):
dry run reports; a termination failure is caught and logged; otherwise
terminate, and force-kill when still alive and `force`. -/
def killLoop (env : Env) (dry force : Bool) : List Proc → St → St
  | [], st => st
  | pr :: prs, st =>
      if dry then
        killLoop env dry force prs
          (notify st ("[DRY RUN] Would terminate process PID=" ++ toString pr.pid))
      else if env.terminateFails pr.pid then
        killLoop env dry force prs
          (notify st ("Failed to terminate PID=" ++ toString pr.pid))
      else
        let st1 : St := { st with evs := st.evs ++ [Ev.terminateP pr.pid] }
        let st2 : St :=
          if env.staysAlive pr.pid && force then { st1 with evs := st1.evs ++ [Ev.killP pr.pid] }
          else st1
        killLoop env dry force prs (notify st2 ("Terminated PID=" ++ toString pr.pid))

/-- `kill_browser_processes(browser_key, dry_run, force)` of `Clean.py`:
with `psutil`, select processes by case-insensitive substring match and
run the per-process loop; without it, fall back to kill-by-name commands
(none in dry run). -/
def kill_browser_processes (t : String) (dry force : Bool) (env : Env) (st : St) :
    List Proc × St :=
  let names := dictGet BROWSER_PROCS t []
  if env.psutilAvailable then
    let found := env.procs.filter (procMatch names)
    if found.isEmpty then ([], st)
    else (found, killLoop env dry force found st)
  else
    if dry then ([], notify st "[DRY RUN] Would attempt to kill processes by name.")
    else
      let st1 := names.foldl (fun s n => { s with evs := s.evs ++ [Ev.killByName n] }) st
      ([], notify st1 "Kill commands issued (psutil not available to check).")

/-- The immediate child names of a directory (`os.listdir`). -/
def childNames (fs : FS) (base : FsPath) : List String :=
  ((fs.map Prod.fst).dedup).filterMap (fun k =>
    if k.length == base.length + 1 && pathLe base k then k.getLast? else none)

/-- The profile-name heuristic of `find_browser_userdata`. -/
def isProfileName (p : String) : Bool :=
  p == "Default" || p.startsWith "Profile" || p.toLower.endsWith "default"

/-- `find_browser_userdata(browser_key)` of `Clean.py`: `none` when
the user-data root does not exist; otherwise the root and the
subdirectories matching the naming heuristic, falling back to any
subdirectory containing a `History` file. -/
def find_browser_userdata (env : Env) (fs : FS) (t : String) : Option (FsPath × List FsPath) :=
  let base := env.basePath t
  match lookupFS fs base with
  | none => none
  | some _ =>
      let names := childNames fs base
      let named := (names.filter (fun n => isDir fs (base ++ [n]) && isProfileName n)).map
        (fun n => base ++ [n])
      let profiles :=
        if named.isEmpty then
          (names.filter (fun n =>
            isDir fs (base ++ [n]) && (lookupFS fs (base ++ [n, "History"])).isSome)).map
            (fun n => base ++ [n])
        else named
      some (base, profiles)

/-- The command-line arguments of `Clean.py`. -/
structure Args where
  chrome : Bool
  edge : Bool
  all : Bool
  dry_run : Bool
  shred : Bool
  remove_passwords : Bool
  remove_local_state : Bool
  no_kill : Bool
  force_kill : Bool
  verbose : Bool
deriving DecidableEq, Repr

/-- Target browsers: the explicitly selected ones, defaulting to both. -/
def targetsOf (args : Args) : List String :=
  let ts := (if args.chrome then ["chrome"] else []) ++ (if args.edge then ["edge"] else [])
  if ts.isEmpty then ["chrome", "edge"] else ts

/-- Aggregate run outcome (`overall` dict of `run_clean`). -/
structure Overall where
  cleaned : List (String × List (FsPath × Results))
  skipped : List String
deriving DecidableEq, Repr

/-- The per-profile loop of `run_clean`: notify, clean, and collect each
profile's `Results` in order. -/
def cleanProfiles (opts : Options) (env : Env) :
    List FsPath → St → List (FsPath × Results) × St
  | [], st => ([], st)
  | p :: ps, st =>
      let st0 := notify st ("Cleaning profile: " ++ pstr p)
      let r := clean_profile p opts env st0
      let rest := cleanProfiles opts env ps r.2
      ((p, r.1) :: rest.1, rest.2)

/-- The per-browser loop of `run_clean`: locate the user data, skip when
absent or empty, otherwise optionally kill processes, clean every profile,
and optionally remove the root-level `Local State` file. -/
def runTargets (args : Args) (opts : Options) (env : Env) :
    List String → Overall → St → Overall × St
  | [], ov, st => (ov, st)
  | t :: ts, ov, st =>
      match find_browser_userdata env st.fs t with
      | none =>
          runTargets args opts env ts { ov with skipped := ov.skipped ++ [t] }
            (notify st ("No user data folder found for " ++ t ++ " on this machine."))
      | some (base, profiles) =>
          if profiles.isEmpty then
            runTargets args opts env ts { ov with skipped := ov.skipped ++ [t] }
              (notify st ("No profiles detected for " ++ t ++ "."))
          else
            let st1 := notify st
              ("Preparing to clean " ++ t ++ ". Profiles: " ++ toString profiles.length)
            let st2 := if args.no_kill then st1
              else (kill_browser_processes t args.dry_run args.force_kill env st1).2
            let r := cleanProfiles opts env profiles st2
            let st4 := if args.remove_local_state then
                (remove_path env r.2 (base ++ ["Local State"]) args.dry_run args.shred).2
              else r.2
            runTargets args opts env ts { ov with cleaned := ov.cleaned ++ [(t, r.1)] } st4

/-- The summary header printed at the end of every run. -/
def summaryHeader : String := "\n=== Cleaning complete — Summary ==="

/-- Verbose listing of cleaned targets. -/
def renderDeleted (st : St) (ds : List FsPath) : St :=
  ds.foldl (fun s d => notify s ("      - " ++ pstr d)) st

/-- Listing of failed targets. -/
def renderFailed (st : St) (fl : List FsPath) : St :=
  fl.foldl (fun s f => notify s ("      ! " ++ pstr f)) st

/-- Per-profile summary block. -/
def renderProfile (verbose : Bool) (st : St) (pr : FsPath × Results) : St :=
  let st1 := notify st ("  Profile: " ++ pstr pr.1)
  let st2 := notify st1 ("    Deleted/cleaned: " ++ toString pr.2.deleted.length)
  let st3 := if verbose then renderDeleted st2 pr.2.deleted else st2
  if pr.2.failed.isEmpty then st3
  else renderFailed (notify st3 ("    Failed: " ++ toString pr.2.failed.length)) pr.2.failed

/-- Per-browser summary block. -/
def renderBrowser (verbose : Bool) (st : St) (b : String × List (FsPath × Results)) : St :=
  b.2.foldl (renderProfile verbose) (notify st ("Browser: " ++ b.1))

/-- The end-of-run summary of `run_clean`. -/
def renderSummary (verbose : Bool) (cleaned : List (String × List (FsPath × Results))) (st : St) :
    St :=
  cleaned.foldl (renderBrowser verbose) (notify st summaryHeader)

/-- `run_clean(args)` of `Clean.py`: process every target browser, then
print the summary. -/
def run_clean (args : Args) (env : Env) (st : St) : Overall × St :=
  let opts : Options := ⟨args.dry_run, args.shred, args.remove_passwords, args.verbose⟩
  let r := runTargets args opts env (targetsOf args) ⟨[], []⟩ st
  (r.1, renderSummary args.verbose r.1.cleaned r.2)

namespace Clean2

/-- `remove_path(path)` of `Clean2.py`: no options at all — an existing
file is unlinked (failures only logged), an existing directory tree is
removed with `ignore_errors=True` (never raises), a missing path is
silently skipped. -/
def remove_path (env : Env) (st : St) (p : FsPath) : St :=
  match lookupFS st.fs p with
  | none => st
  | some (Entry.file _) =>
      if env.removeFails p then notify st ("Failed: " ++ pstr p)
      else notify { st with fs := eraseKey st.fs p, evs := st.evs ++ [Ev.unlink p] }
        ("Deleted: " ++ pstr p)
  | some Entry.dir =>
      notify { st with fs := eraseTree st.fs p, evs := st.evs ++ [Ev.rmtreeE p] }
        ("Deleted: " ++ pstr p)

/-- `COMMON_ITEMS` of `Clean2.py`. -/
def COMMON_ITEMS : List String :=
  ["Cache", "Code Cache", "GPUCache", "Service Worker", "IndexedDB",
   "Local Storage", "Session Storage", "Sessions", "Shortcuts", "Crashpad",
   "Top Sites", "Favicons", "History Provider Cache", "Thumbnails"]

/-- `DB_FILES` of `Clean2.py`: the databases, deleted as whole files —
`Login Data` included, unconditionally. -/
def DB_FILES : List String := ["History", "Cookies", "Web Data", "Login Data"]

/-- `LOOSE_FILES` of `Clean2.py`. -/
def LOOSE_FILES : List String :=
  ["Cookies-journal", "Current Session", "Current Tabs",
   "Last Session", "Last Tabs", "Preferences", "Secure Preferences"]

/-- Remove a list of profile-relative names outright. -/
def removeAll (env : Env) (prof : FsPath) : List String → St → St
  | [], st => st
  | n :: ns, st => removeAll env prof ns (remove_path env st (pjoin prof n))

/-- `clean_profile(profile_path)` of `Clean2.py`: delete every common
item, every database file, and every loose file — no options, no dry run,
no password gate. -/
def clean_profile (env : Env) (prof : FsPath) (st : St) : St :=
  removeAll env prof LOOSE_FILES (removeAll env prof DB_FILES (removeAll env prof COMMON_ITEMS st))

/-- `kill_browser_processes(names)` of `Clean2.py`: immediate
`proc.kill()` on every match (failures swallowed), or kill-by-name
commands without `psutil`. -/
def kill_browser_processes (names : List String) (env : Env) (st : St) : St :=
  if env.psutilAvailable then
    (env.procs.filter (procMatch names)).foldl
      (fun s pr => if env.terminateFails pr.pid then s
        else notify { s with evs := s.evs ++ [Ev.killP pr.pid] } ("Killed PID " ++ toString pr.pid))
      st
  else
    names.foldl (fun s n => { s with evs := s.evs ++ [Ev.killByName n] }) st

/-- `find_profiles(browser_key)` of `Clean2.py`: every immediate
subdirectory of the user-data root, with no name filtering. -/
def find_profiles (env : Env) (fs : FS) (t : String) : List FsPath :=
  let base := env.basePath t
  if (lookupFS fs base).isSome then
    ((childNames fs base).filter (fun n => isDir fs (base ++ [n]))).map (fun n => base ++ [n])
  else []

/-- The per-browser body of `run_cleaner`. -/
def runBrowser (env : Env) (st : St) (b : String × List String) : St :=
  let st1 := kill_browser_processes b.2 env (notify st ("Cleaning " ++ b.1))
  let profiles := find_profiles env st1.fs b.1
  if profiles.isEmpty then notify st1 "No profiles found."
  else
    let st2 := profiles.foldl (fun s p => clean_profile env p (notify s ("Cleaning profile: " ++ pstr p))) st1
    remove_path env st2 (env.basePath b.1 ++ ["Local State"])

/-- `run_cleaner()` of `Clean2.py`: for each browser, kill processes,
clean every profile, and always remove the root-level `Local State`. -/
def run_cleaner (env : Env) (st : St) : St :=
  notify (BROWSER_PROCS.foldl (runBrowser env) st) "Cleaning complete!"

end Clean2

/-! ## Basic filesystem lemmas -/

theorem lookup_eraseKey_self (fs : FS) (p : FsPath) : lookupFS (eraseKey fs p) p = none := by
  induction fs with
  | nil => rfl
  | cons kv rest ih =>
      obtain ⟨k, v⟩ := kv
      by_cases h : k = p
      · simpa [eraseKey, h] using ih
      · simp [eraseKey, lookupFS, h, ih]

theorem lookup_eraseKey_ne (fs : FS) (p q : FsPath) (h : q ≠ p) :
    lookupFS (eraseKey fs p) q = lookupFS fs q := by
  induction fs with
  | nil => rfl
  | cons kv rest ih =>
      obtain ⟨k, v⟩ := kv
      by_cases hk : k = p
      · subst hk
        have hkq : ¬(k = q) := fun hh => h hh.symm
        simp [eraseKey, lookupFS, hkq, ih]
      · by_cases hq : k = q
        · simp [eraseKey, lookupFS, hk, hq, h]
        · simp [eraseKey, lookupFS, hk, hq, ih]

theorem pathLe_refl (p : FsPath) : pathLe p p = true := by
  induction p with
  | nil => rfl
  | cons a as ih => simp [pathLe, ih]

theorem pathLe_false_ne {p q : FsPath} (h : pathLe p q = false) : q ≠ p := by
  intro hq
  subst hq
  rw [pathLe_refl] at h
  exact absurd h (by simp)

theorem lookup_eraseTree_le (fs : FS) (p q : FsPath) (h : pathLe p q = true) :
    lookupFS (eraseTree fs p) q = none := by
  induction fs with
  | nil => rfl
  | cons kv rest ih =>
      obtain ⟨k, v⟩ := kv
      by_cases hk : pathLe p k = true
      · simpa [eraseTree, hk] using ih
      · have hk' : pathLe p k = false := by
          cases hb : pathLe p k
          · rfl
          · exact absurd hb hk
        have hkq : k ≠ q := by
          intro he
          subst he
          rw [h] at hk'
          exact absurd hk' (by simp)
        simp [eraseTree, hk', lookupFS, hkq, ih]

theorem lookup_eraseTree_not_le (fs : FS) (p q : FsPath) (h : pathLe p q = false) :
    lookupFS (eraseTree fs p) q = lookupFS fs q := by
  induction fs with
  | nil => rfl
  | cons kv rest ih =>
      obtain ⟨k, v⟩ := kv
      by_cases hk : pathLe p k = true
      · have hkq : k ≠ q := by
          intro he
          subst he
          rw [hk] at h
          exact absurd h (by simp)
        simp [eraseTree, hk, lookupFS, hkq, ih]
      · have hk' : pathLe p k = false := by
          cases hb : pathLe p k
          · rfl
          · exact absurd hb hk
        by_cases hq : k = q
        · simp [eraseTree, hk', lookupFS, hq, h]
        · simp [eraseTree, hk', lookupFS, hq, ih]

theorem lookup_updateFS_self (fs : FS) (p : FsPath) (v : Entry) :
    lookupFS (updateFS fs p v) p = some v := by
  simp [updateFS, lookupFS]

theorem lookup_updateFS_ne (fs : FS) (p q : FsPath) (v : Entry) (h : q ≠ p) :
    lookupFS (updateFS fs p v) q = lookupFS fs q := by
  have h' : ¬(p = q) := fun hh => h hh.symm
  simp [updateFS, lookupFS, h']
  exact lookup_eraseKey_ne fs p q h

theorem pathLe_append (a b c : FsPath) : pathLe (a ++ b) (a ++ c) = pathLe b c := by
  induction a with
  | nil => rfl
  | cons x xs ih => simp [pathLe, ih]

theorem append_inj_right {a b c : FsPath} (h : a ++ b = a ++ c) : b = c := by
  induction a with
  | nil => exact h
  | cons x xs ih =>
      apply ih
      simpa using h

/-- `pathLe` over two joined item names reduces to the split names. -/
theorem pathLe_pjoin (prof : FsPath) (n m : String) :
    pathLe (pjoin prof n) (pjoin prof m) = pathLe (splitSlash n) (splitSlash m) := by
  simp [pjoin, pathLe_append]

theorem pjoin_inj {prof : FsPath} {n m : String} (h : pjoin prof n = pjoin prof m) :
    splitSlash n = splitSlash m := by
  exact append_inj_right h

/-! ## State relations -/

/-- Dry-run frame: the filesystem and the event trace are untouched
(only the log may have grown). -/
def NoMut (st st' : St) : Prop := st'.fs = st.fs ∧ st'.evs = st.evs

theorem NoMut_rfl (st : St) : NoMut st st := ⟨rfl, rfl⟩

theorem NoMut_trans {a b c : St} (h1 : NoMut a b) (h2 : NoMut b c) : NoMut a c :=
  ⟨h2.1.trans h1.1, h2.2.trans h1.2⟩

/-- Nothing is created: a path absent before an operation is absent after. -/
def NoCreate (st st' : St) : Prop :=
  ∀ q, lookupFS st.fs q = none → lookupFS st'.fs q = none

theorem NoCreate_rfl (st : St) : NoCreate st st := fun _ h => h

theorem NoCreate_trans {a b c : St} (h1 : NoCreate a b) (h2 : NoCreate b c) : NoCreate a c :=
  fun q h => h2 q (h1 q h)

/-- Which paths an event destructively touches. -/
def evTouches : Ev → FsPath → Bool
  | Ev.write p _, q => p == q
  | Ev.fsync p, q => p == q
  | Ev.unlink p, q => p == q
  | Ev.rmtreeE p, q => pathLe p q
  | Ev.stmts p _, q => p == q
  | Ev.terminateP _, _ => false
  | Ev.killP _, _ => false
  | Ev.killByName _, _ => false

/-- The path `lp` is untouched: its entry is unchanged and every event
added by the operation avoids it. -/
def Avoids (lp : FsPath) (st st' : St) : Prop :=
  lookupFS st'.fs lp = lookupFS st.fs lp ∧
  ∃ d, st'.evs = st.evs ++ d ∧ ∀ e ∈ d, evTouches e lp = false

theorem Avoids_rfl (lp : FsPath) (st : St) : Avoids lp st st :=
  ⟨rfl, [], by simp⟩

theorem Avoids_trans {lp : FsPath} {a b c : St} (h1 : Avoids lp a b) (h2 : Avoids lp b c) :
    Avoids lp a c := by
  obtain ⟨hf1, d1, he1, ht1⟩ := h1
  obtain ⟨hf2, d2, he2, ht2⟩ := h2
  refine ⟨hf2.trans hf1, d1 ++ d2, ?_, ?_⟩
  · rw [he2, he1, List.append_assoc]
  · intro e he
    rcases List.mem_append.mp he with h | h
    · exact ht1 e h
    · exact ht2 e h

theorem notify_avoids (lp : FsPath) (st : St) (m : String) : Avoids lp st (notify st m) :=
  ⟨rfl, [], by simp [notify]⟩

theorem notify_nomut (st : St) (m : String) : NoMut st (notify st m) := ⟨rfl, rfl⟩

theorem notify_nc (st : St) (m : String) : NoCreate st (notify st m) := fun _ h => h

/-! ## Characterizations of the primitive operations -/

theorem osRemove_file_ok {env : Env} {st : St} {p : FsPath} {c : List Nat}
    (h : lookupFS st.fs p = some (Entry.file c)) (hr : env.removeFails p = false) :
    osRemove env st p =
      some { st with fs := eraseKey st.fs p, evs := st.evs ++ [Ev.unlink p] } := by
  simp [osRemove, h, hr]

theorem osRemove_file_fail {env : Env} {st : St} {p : FsPath} {c : List Nat}
    (h : lookupFS st.fs p = some (Entry.file c)) (hr : env.removeFails p = true) :
    osRemove env st p = none := by
  simp [osRemove, h, hr]

theorem osRemove_absent {env : Env} {st : St} {p : FsPath} (h : lookupFS st.fs p = none) :
    osRemove env st p = none := by
  simp [osRemove, h]

theorem osRemove_dir {env : Env} {st : St} {p : FsPath} (h : lookupFS st.fs p = some Entry.dir) :
    osRemove env st p = none := by
  simp [osRemove, h]

theorem ow_absent {env : Env} {st : St} {p : FsPath} {n : Nat} (h : lookupFS st.fs p = none) :
    overwrite_and_remove env st p n = (false, st) := by
  simp [overwrite_and_remove, osRemove, h]

theorem ow_dir {env : Env} {st : St} {p : FsPath} {n : Nat}
    (h : lookupFS st.fs p = some Entry.dir) :
    overwrite_and_remove env st p n = (false, st) := by
  simp [overwrite_and_remove, osRemove, h]

theorem ow_file_ok {env : Env} {st : St} {p : FsPath} {c : List Nat} {n : Nat}
    (h : lookupFS st.fs p = some (Entry.file c))
    (ho : env.openFails p = false) (hr : env.removeFails p = false) :
    overwrite_and_remove env st p n =
      (true, { st with
        fs := eraseKey (updateFS st.fs p (Entry.file (finalBytes env.rnd c n))) p,
        evs := (st.evs ++ passEvents env.rnd p c.length n) ++ [Ev.unlink p] }) := by
  simp [overwrite_and_remove, h, ho, osRemove, lookup_updateFS_self, hr]

theorem ow_file_removeFail {env : Env} {st : St} {p : FsPath} {c : List Nat} {n : Nat}
    (h : lookupFS st.fs p = some (Entry.file c))
    (ho : env.openFails p = false) (hr : env.removeFails p = true) :
    overwrite_and_remove env st p n =
      (false, { st with
        fs := updateFS st.fs p (Entry.file (finalBytes env.rnd c n)),
        evs := st.evs ++ passEvents env.rnd p c.length n }) := by
  simp [overwrite_and_remove, h, ho, osRemove, lookup_updateFS_self, hr]

theorem ow_file_openFail_ok {env : Env} {st : St} {p : FsPath} {c : List Nat} {n : Nat}
    (h : lookupFS st.fs p = some (Entry.file c))
    (ho : env.openFails p = true) (hr : env.removeFails p = false) :
    overwrite_and_remove env st p n =
      (true, { st with fs := eraseKey st.fs p, evs := st.evs ++ [Ev.unlink p] }) := by
  simp [overwrite_and_remove, h, ho, osRemove, hr]

theorem ow_file_openFail_fail {env : Env} {st : St} {p : FsPath} {c : List Nat} {n : Nat}
    (h : lookupFS st.fs p = some (Entry.file c))
    (ho : env.openFails p = true) (hr : env.removeFails p = true) :
    overwrite_and_remove env st p n = (false, st) := by
  simp [overwrite_and_remove, h, ho, osRemove, hr]

theorem remove_path_none {env : Env} {st : St} {p : FsPath} {dry shred : Bool}
    (h : lookupFS st.fs p = none) :
    remove_path env st p dry shred = (false, st) := by
  simp [remove_path, h]

theorem remove_path_dry_eq {env : Env} {st : St} {p : FsPath} {shred : Bool} {e : Entry}
    (h : lookupFS st.fs p = some e) :
    remove_path env st p true shred =
      (true, notify st ("[DRY RUN] Would remove: " ++ pstr p)) := by
  cases e <;> simp [remove_path, h]

theorem remove_path_file_plain_ok {env : Env} {st : St} {p : FsPath} {c : List Nat}
    (h : lookupFS st.fs p = some (Entry.file c)) (hr : env.removeFails p = false) :
    remove_path env st p false false =
      (true, notify { st with fs := eraseKey st.fs p, evs := st.evs ++ [Ev.unlink p] }
        ("Removed: " ++ pstr p)) := by
  simp [remove_path, h, osRemove, hr]

theorem remove_path_file_plain_fail {env : Env} {st : St} {p : FsPath} {c : List Nat}
    (h : lookupFS st.fs p = some (Entry.file c)) (hr : env.removeFails p = true) :
    remove_path env st p false false =
      (false, notify st ("Failed to remove " ++ pstr p)) := by
  simp [remove_path, h, osRemove, hr]

theorem remove_path_file_shred_ok {env : Env} {st : St} {p : FsPath} {c : List Nat}
    (h : lookupFS st.fs p = some (Entry.file c))
    (ho : env.openFails p = false) (hr : env.removeFails p = false) :
    remove_path env st p false true =
      (true, notify { st with
        fs := eraseKey (updateFS st.fs p (Entry.file (finalBytes env.rnd c 1))) p,
        evs := (st.evs ++ passEvents env.rnd p c.length 1) ++ [Ev.unlink p] }
        ("Removed: " ++ pstr p)) := by
  rw [remove_path.eq_def]
  simp only [h]
  rw [ow_file_ok h ho hr]
  simp

theorem remove_path_file_shred_removeFail {env : Env} {st : St} {p : FsPath} {c : List Nat}
    (h : lookupFS st.fs p = some (Entry.file c))
    (ho : env.openFails p = false) (hr : env.removeFails p = true) :
    remove_path env st p false true =
      (false, notify { st with
        fs := updateFS st.fs p (Entry.file (finalBytes env.rnd c 1)),
        evs := st.evs ++ passEvents env.rnd p c.length 1 }
        ("Failed to remove " ++ pstr p)) := by
  rw [remove_path.eq_def]
  simp only [h]
  rw [ow_file_removeFail h ho hr]
  simp [osRemove, lookup_updateFS_self, hr]

theorem remove_path_file_shred_openFail_ok {env : Env} {st : St} {p : FsPath} {c : List Nat}
    (h : lookupFS st.fs p = some (Entry.file c))
    (ho : env.openFails p = true) (hr : env.removeFails p = false) :
    remove_path env st p false true =
      (true, notify { st with fs := eraseKey st.fs p, evs := st.evs ++ [Ev.unlink p] }
        ("Removed: " ++ pstr p)) := by
  rw [remove_path.eq_def]
  simp only [h]
  rw [ow_file_openFail_ok h ho hr]
  simp

theorem remove_path_file_shred_openFail_fail {env : Env} {st : St} {p : FsPath} {c : List Nat}
    (h : lookupFS st.fs p = some (Entry.file c))
    (ho : env.openFails p = true) (hr : env.removeFails p = true) :
    remove_path env st p false true =
      (false, notify st ("Failed to remove " ++ pstr p)) := by
  rw [remove_path.eq_def]
  simp only [h]
  rw [ow_file_openFail_fail h ho hr]
  simp [osRemove, h, hr]

theorem remove_path_dir_ok {env : Env} {st : St} {p : FsPath} {shred : Bool}
    (h : lookupFS st.fs p = some Entry.dir) (hrt : env.rmtreeFails p = false) :
    remove_path env st p false shred =
      (true, notify { st with fs := eraseTree st.fs p, evs := st.evs ++ [Ev.rmtreeE p] }
        ("Removed: " ++ pstr p)) := by
  simp [remove_path, h, hrt]

theorem remove_path_dir_fail {env : Env} {st : St} {p : FsPath} {shred : Bool}
    (h : lookupFS st.fs p = some Entry.dir) (hrt : env.rmtreeFails p = true) :
    remove_path env st p false shred =
      (false, notify st ("Failed to remove " ++ pstr p)) := by
  simp [remove_path, h, hrt]

theorem clear_none {env : Env} {st : St} {p : FsPath} {qs : List String} {dry : Bool}
    (h : lookupFS st.fs p = none) :
    clear_sqlite_table env st p qs dry = (false, st) := by
  simp [clear_sqlite_table, h]

theorem clear_dry_eq {env : Env} {st : St} {p : FsPath} {qs : List String} {e : Entry}
    (h : lookupFS st.fs p = some e) :
    clear_sqlite_table env st p qs true =
      (true, notify st ("[DRY RUN] Would execute cleanup queries on DB: " ++ pstr p)) := by
  cases e <;> simp [clear_sqlite_table, h]

theorem clear_file_ok {env : Env} {st : St} {p : FsPath} {qs : List String} {c : List Nat}
    (h : lookupFS st.fs p = some (Entry.file c)) (hc : env.connectFails p = false) :
    clear_sqlite_table env st p qs false =
      (true, notify { st with
        fs := updateFS st.fs p (Entry.file (env.dbApply qs c)),
        evs := st.evs ++ [Ev.stmts p qs] }
        ("Run cleanup queries on " ++ pstr p)) := by
  simp [clear_sqlite_table, h, hc]

theorem clear_file_locked {env : Env} {st : St} {p : FsPath} {qs : List String} {c : List Nat}
    (h : lookupFS st.fs p = some (Entry.file c)) (hc : env.connectFails p = true) :
    clear_sqlite_table env st p qs false =
      (false, notify st ("DB locked or operation failed: " ++ pstr p)) := by
  simp [clear_sqlite_table, h, hc]

theorem clear_dir {env : Env} {st : St} {p : FsPath} {qs : List String}
    (h : lookupFS st.fs p = some Entry.dir) :
    clear_sqlite_table env st p qs false =
      (false, notify st ("Error cleaning DB " ++ pstr p)) := by
  simp [clear_sqlite_table, h]

/-! ## Derived operation properties -/

theorem nc_eraseKey (fs : FS) (p q : FsPath) (h : lookupFS fs q = none) :
    lookupFS (eraseKey fs p) q = none := by
  by_cases hq : q = p
  · subst hq
    exact lookup_eraseKey_self fs q
  · rw [lookup_eraseKey_ne fs p q hq]
    exact h

theorem nc_eraseTree (fs : FS) (p q : FsPath) (h : lookupFS fs q = none) :
    lookupFS (eraseTree fs p) q = none := by
  cases hb : pathLe p q with
  | false =>
      rw [lookup_eraseTree_not_le fs p q hb]
      exact h
  | true => exact lookup_eraseTree_le fs p q hb

theorem nc_updateFS (fs : FS) (p q : FsPath) (v : Entry) (hp : lookupFS fs p ≠ none)
    (h : lookupFS fs q = none) : lookupFS (updateFS fs p v) q = none := by
  by_cases hq : q = p
  · subst hq
    exact absurd h hp
  · rw [lookup_updateFS_ne fs p q v hq]
    exact h

theorem passEvents_avoid {rnd : Nat → Nat → Nat} {p q : FsPath} {size : Nat}
    (h : ¬(p = q)) : ∀ n, ∀ e ∈ passEvents rnd p size n, evTouches e q = false := by
  intro n
  induction n with
  | zero => simp [passEvents]
  | succ k ih =>
      intro e he
      rcases List.mem_append.mp he with h1 | h2
      · exact ih e h1
      · rcases List.mem_cons.mp h2 with h3 | h4
        · subst h3
          simp [evTouches, h]
        · rcases List.mem_singleton.mp h4 with h5
          subst h5
          simp [evTouches, h]

theorem Avoids_notify {q : FsPath} {st st' : St} (h : Avoids q st st') (m : String) :
    Avoids q st (notify st' m) :=
  Avoids_trans h (notify_avoids q st' m)

theorem remove_path_avoids {env : Env} {st : St} {p : FsPath} {dry shred : Bool} {q : FsPath}
    (h : pathLe p q = false) : Avoids q st (remove_path env st p dry shred).2 := by
  have hqp : q ≠ p := pathLe_false_ne h
  have hpq : ¬(p = q) := fun hh => hqp hh.symm
  cases hl : lookupFS st.fs p with
  | none =>
      rw [remove_path_none hl]
      exact Avoids_rfl q st
  | some e =>
      cases dry with
      | true =>
          rw [remove_path_dry_eq hl]
          exact notify_avoids q st _
      | false =>
          cases e with
          | dir =>
              cases hrt : env.rmtreeFails p with
              | true =>
                  rw [remove_path_dir_fail hl hrt]
                  exact notify_avoids q st _
              | false =>
                  rw [remove_path_dir_ok hl hrt]
                  refine Avoids_notify ⟨?_, [Ev.rmtreeE p], rfl, ?_⟩ _
                  · exact lookup_eraseTree_not_le st.fs p q h
                  · intro e he
                    rcases List.mem_singleton.mp he with h5
                    subst h5
                    simp [evTouches, h]
          | file c =>
              cases shred with
              | false =>
                  cases hr : env.removeFails p with
                  | false =>
                      rw [remove_path_file_plain_ok hl hr]
                      refine Avoids_notify ⟨?_, [Ev.unlink p], rfl, ?_⟩ _
                      · exact lookup_eraseKey_ne st.fs p q hqp
                      · intro e he
                        rcases List.mem_singleton.mp he with h5
                        subst h5
                        simp [evTouches, hpq]
                  | true =>
                      rw [remove_path_file_plain_fail hl hr]
                      exact notify_avoids q st _
              | true =>
                  cases ho : env.openFails p with
                  | false =>
                      cases hr : env.removeFails p with
                      | false =>
                          rw [remove_path_file_shred_ok hl ho hr]
                          refine Avoids_notify
                            ⟨?_, passEvents env.rnd p c.length 1 ++ [Ev.unlink p], ?_, ?_⟩ _
                          · rw [lookup_eraseKey_ne _ p q hqp,
                              lookup_updateFS_ne _ p q _ hqp]
                          · simp
                          · intro e he
                            rcases List.mem_append.mp he with h1 | h2
                            · exact passEvents_avoid hpq 1 e h1
                            · rcases List.mem_singleton.mp h2 with h5
                              subst h5
                              simp [evTouches, hpq]
                      | true =>
                          rw [remove_path_file_shred_removeFail hl ho hr]
                          refine Avoids_notify
                            ⟨?_, passEvents env.rnd p c.length 1, rfl, ?_⟩ _
                          · rw [lookup_updateFS_ne _ p q _ hqp]
                          · intro e he
                            exact passEvents_avoid hpq 1 e he
                  | true =>
                      cases hr : env.removeFails p with
                      | false =>
                          rw [remove_path_file_shred_openFail_ok hl ho hr]
                          refine Avoids_notify ⟨?_, [Ev.unlink p], rfl, ?_⟩ _
                          · exact lookup_eraseKey_ne st.fs p q hqp
                          · intro e he
                            rcases List.mem_singleton.mp he with h5
                            subst h5
                            simp [evTouches, hpq]
                      | true =>
                          rw [remove_path_file_shred_openFail_fail hl ho hr]
                          exact notify_avoids q st _

theorem clear_avoids {env : Env} {st : St} {p : FsPath} {qs : List String} {dry : Bool}
    {q : FsPath} (hqp : q ≠ p) : Avoids q st (clear_sqlite_table env st p qs dry).2 := by
  have hpq : ¬(p = q) := fun hh => hqp hh.symm
  cases hl : lookupFS st.fs p with
  | none =>
      rw [clear_none hl]
      exact Avoids_rfl q st
  | some e =>
      cases dry with
      | true =>
          rw [clear_dry_eq hl]
          exact notify_avoids q st _
      | false =>
          cases e with
          | dir =>
              rw [clear_dir hl]
              exact notify_avoids q st _
          | file c =>
              cases hc : env.connectFails p with
              | true =>
                  rw [clear_file_locked hl hc]
                  exact notify_avoids q st _
              | false =>
                  rw [clear_file_ok hl hc]
                  refine Avoids_notify ⟨?_, [Ev.stmts p qs], rfl, ?_⟩ _
                  · exact lookup_updateFS_ne st.fs p q _ hqp
                  · intro e he
                    rcases List.mem_singleton.mp he with h5
                    subst h5
                    simp [evTouches, hpq]

theorem remove_path_nc (env : Env) (st : St) (p : FsPath) (dry shred : Bool) :
    NoCreate st (remove_path env st p dry shred).2 := by
  cases hl : lookupFS st.fs p with
  | none =>
      rw [remove_path_none hl]
      exact NoCreate_rfl st
  | some e =>
      cases dry with
      | true =>
          rw [remove_path_dry_eq hl]
          exact notify_nc st _
      | false =>
          cases e with
          | dir =>
              cases hrt : env.rmtreeFails p with
              | true =>
                  rw [remove_path_dir_fail hl hrt]
                  exact notify_nc st _
              | false =>
                  rw [remove_path_dir_ok hl hrt]
                  intro q hq
                  exact nc_eraseTree st.fs p q hq
          | file c =>
              have hp : lookupFS st.fs p ≠ none := by
                rw [hl]
                exact fun hh => Option.noConfusion hh
              cases shred with
              | false =>
                  cases hr : env.removeFails p with
                  | false =>
                      rw [remove_path_file_plain_ok hl hr]
                      intro q hq
                      exact nc_eraseKey st.fs p q hq
                  | true =>
                      rw [remove_path_file_plain_fail hl hr]
                      exact notify_nc st _
              | true =>
                  cases ho : env.openFails p with
                  | false =>
                      cases hr : env.removeFails p with
                      | false =>
                          rw [remove_path_file_shred_ok hl ho hr]
                          intro q hq
                          exact nc_eraseKey _ p q (nc_updateFS st.fs p q _ hp hq)
                      | true =>
                          rw [remove_path_file_shred_removeFail hl ho hr]
                          intro q hq
                          exact nc_updateFS st.fs p q _ hp hq
                  | true =>
                      cases hr : env.removeFails p with
                      | false =>
                          rw [remove_path_file_shred_openFail_ok hl ho hr]
                          intro q hq
                          exact nc_eraseKey st.fs p q hq
                      | true =>
                          rw [remove_path_file_shred_openFail_fail hl ho hr]
                          exact notify_nc st _

theorem clear_nc (env : Env) (st : St) (p : FsPath) (qs : List String) (dry : Bool) :
    NoCreate st (clear_sqlite_table env st p qs dry).2 := by
  cases hl : lookupFS st.fs p with
  | none =>
      rw [clear_none hl]
      exact NoCreate_rfl st
  | some e =>
      cases dry with
      | true =>
          rw [clear_dry_eq hl]
          exact notify_nc st _
      | false =>
          cases e with
          | dir =>
              rw [clear_dir hl]
              exact notify_nc st _
          | file c =>
              cases hc : env.connectFails p with
              | true =>
                  rw [clear_file_locked hl hc]
                  exact notify_nc st _
              | false =>
                  rw [clear_file_ok hl hc]
                  intro q hq
                  have hp : lookupFS st.fs p ≠ none := by
                    rw [hl]
                    exact fun hh => Option.noConfusion hh
                  exact nc_updateFS st.fs p q _ hp hq

theorem remove_path_dry_nomut (env : Env) (st : St) (p : FsPath) (shred : Bool) :
    NoMut st (remove_path env st p true shred).2 := by
  cases hl : lookupFS st.fs p with
  | none =>
      rw [remove_path_none hl]
      exact NoMut_rfl st
  | some e =>
      rw [remove_path_dry_eq hl]
      exact notify_nomut st _

theorem clear_dry_nomut (env : Env) (st : St) (p : FsPath) (qs : List String) :
    NoMut st (clear_sqlite_table env st p qs true).2 := by
  cases hl : lookupFS st.fs p with
  | none =>
      rw [clear_none hl]
      exact NoMut_rfl st
  | some e =>
      rw [clear_dry_eq hl]
      exact notify_nomut st _

/-- A successful non-dry `remove_path` leaves the target absent. -/
theorem remove_path_true_absent {env : Env} {st : St} {p : FsPath} {shred : Bool}
    (h : (remove_path env st p false shred).1 = true) :
    lookupFS (remove_path env st p false shred).2.fs p = none := by
  cases hl : lookupFS st.fs p with
  | none =>
      rw [remove_path_none hl] at h
      exact absurd h (by simp)
  | some e =>
      cases e with
      | dir =>
          cases hrt : env.rmtreeFails p with
          | true =>
              rw [remove_path_dir_fail hl hrt] at h
              exact absurd h (by simp)
          | false =>
              rw [remove_path_dir_ok hl hrt]
              simp [notify, lookup_eraseTree_le st.fs p p (pathLe_refl p)]
      | file c =>
          cases shred with
          | false =>
              cases hr : env.removeFails p with
              | false =>
                  rw [remove_path_file_plain_ok hl hr]
                  simp [notify, lookup_eraseKey_self]
              | true =>
                  rw [remove_path_file_plain_fail hl hr] at h
                  exact absurd h (by simp)
          | true =>
              cases ho : env.openFails p with
              | false =>
                  cases hr : env.removeFails p with
                  | false =>
                      rw [remove_path_file_shred_ok hl ho hr]
                      simp [notify, lookup_eraseKey_self]
                  | true =>
                      rw [remove_path_file_shred_removeFail hl ho hr] at h
                      exact absurd h (by simp)
              | true =>
                  cases hr : env.removeFails p with
                  | false =>
                      rw [remove_path_file_shred_openFail_ok hl ho hr]
                      simp [notify, lookup_eraseKey_self]
                  | true =>
                      rw [remove_path_file_shred_openFail_fail hl ho hr] at h
                      exact absurd h (by simp)

/-- A successful non-dry `clear_sqlite_table` means the target was an
unlocked database file, which stays in place with the statements applied. -/
theorem clear_true_inv {env : Env} {st : St} {p : FsPath} {qs : List String}
    (h : (clear_sqlite_table env st p qs false).1 = true) :
    env.connectFails p = false ∧ ∃ c, lookupFS st.fs p = some (Entry.file c) ∧
      lookupFS (clear_sqlite_table env st p qs false).2.fs p =
        some (Entry.file (env.dbApply qs c)) := by
  cases hl : lookupFS st.fs p with
  | none =>
      rw [clear_none hl] at h
      exact absurd h (by simp)
  | some e =>
      cases e with
      | dir =>
          rw [clear_dir hl] at h
          exact absurd h (by simp)
      | file c =>
          cases hc : env.connectFails p with
          | true =>
              rw [clear_file_locked hl hc] at h
              exact absurd h (by simp)
          | false =>
              refine ⟨rfl, c, rfl, ?_⟩
              rw [clear_file_ok hl hc]
              simp [notify, lookup_updateFS_self]

/-! ## Concrete fixtures for witnesses and counterexamples -/

/-- An environment in which no primitive fails. -/
def benignEnv : Env :=
  { rnd := fun _ _ => 0, openFails := fun _ => false, removeFails := fun _ => false,
    rmtreeFails := fun _ => false, connectFails := fun _ => false,
    dbApply := fun _ _ => [], basePath := fun _ => ["base"], procs := [],
    psutilAvailable := true, terminateFails := fun _ => false, staysAlive := fun _ => false }

/-- A benign environment except that the shred overwrite block fails. -/
def shredFailEnv : Env := { benignEnv with openFails := fun _ => true }

/-- The empty initial state. -/
def emptySt : St := ⟨[], [], []⟩

/-- A profile directory holding one small regular file. -/
def profSt : St := ⟨[(["prof"], Entry.dir), (["prof", "f"], Entry.file [1, 2, 3])], [], []⟩

/-- Is an event a byte overwrite? -/
def isWriteEv : Ev → Bool
  | Ev.write _ _ => true
  | _ => false

/-! ## C3 -/

/-- **C3, counterexample.** The claim says a missing target yields
"success as a no-op"; in the code both operations return `False` (while
indeed mutating nothing): at a concrete missing path, `remove_path` and
`clear_sqlite_table` both return `False`. -/
theorem claim_C3_counterexample :
    remove_path benignEnv emptySt ["profile", "Cache"] false false = (false, emptySt) ∧
    clear_sqlite_table benignEnv emptySt ["profile", "History"] (dbQueries "History") false =
      (false, emptySt) :=
  ⟨remove_path_none rfl, clear_none rfl⟩

/-- **C3 (amended).** Both `remove_path` and `clear_sqlite_table`, called
on a target path that does not exist, mutate nothing and return `False`
(not success) as a no-op, for every dryRun/shred setting and every
environment.  (The call sites in `clean_profile` pre-check existence, so
this `False` is never recorded as a failure.) -/
theorem claim_C3 (env : Env) (st : St) (p : FsPath) (qs : List String) (dry shred : Bool)
    (h : lookupFS st.fs p = none) :
    remove_path env st p dry shred = (false, st) ∧
    clear_sqlite_table env st p qs dry = (false, st) :=
  ⟨remove_path_none h, clear_none h⟩

/-- Witness for C3 at a concrete missing path with dryRun and shred set. -/
theorem claim_C3_witness :
    lookupFS emptySt.fs ["profile", "Web Data"] = none ∧
    (remove_path benignEnv emptySt ["profile", "Web Data"] true true = (false, emptySt) ∧
      clear_sqlite_table benignEnv emptySt ["profile", "Web Data"] ["VACUUM;"] true =
        (false, emptySt)) :=
  ⟨rfl, claim_C3 benignEnv emptySt ["profile", "Web Data"] ["VACUUM;"] true true rfl⟩

/-! ## C5 -/

/-- **C5.** Every database sanitize executes its fixed statement list in
order within one connection (one `Ev.stmts` event carrying the ordered
list): the History list deletes all rows of `urls`, `visits` and
`downloads`, the Cookies list all `cookies` rows, the Web Data list all
`autofill` and `autofill_profiles` rows, and `VACUUM;` is the final
statement of every list in `DB_CLEAN_QUERIES`. -/
theorem claim_C5 (env : Env) (st : St) (p : FsPath) (c : List Nat) (qs : List String)
    (h : lookupFS st.fs p = some (Entry.file c)) (hc : env.connectFails p = false) :
    dbQueries "History" =
      ["DELETE FROM urls;", "DELETE FROM visits;", "DELETE FROM downloads;", "VACUUM;"] ∧
    dbQueries "Cookies" = ["DELETE FROM cookies;", "VACUUM;"] ∧
    dbQueries "Web Data" =
      ["DELETE FROM autofill;", "DELETE FROM autofill_profiles;", "VACUUM;"] ∧
    (∀ pair ∈ DB_CLEAN_QUERIES, pair.2.getLast? = some "VACUUM;") ∧
    (clear_sqlite_table env st p qs false).2.evs = st.evs ++ [Ev.stmts p qs] := by
  refine ⟨rfl, rfl, rfl, by decide, ?_⟩
  rw [clear_file_ok h hc]
  simp [notify]

/-- Witness for C5: a concrete existing database file in a benign
environment. -/
theorem claim_C5_witness :
    lookupFS profSt.fs ["prof", "f"] = some (Entry.file [1, 2, 3]) ∧
    benignEnv.connectFails ["prof", "f"] = false ∧
    (clear_sqlite_table benignEnv profSt ["prof", "f"] (dbQueries "History") false).2.evs =
      profSt.evs ++ [Ev.stmts ["prof", "f"] (dbQueries "History")] :=
  ⟨rfl, rfl,
    (claim_C5 benignEnv profSt ["prof", "f"] [1, 2, 3] (dbQueries "History") rfl rfl).2.2.2.2⟩

/-! ## C6 -/

/-- **C6.** When shred is requested on an existing regular file and the
overwrite step fails, `remove_path` falls back to plain deletion: the call
succeeds exactly when the plain deletion succeeds; on success the file is
gone (no file is left behind due to a shredding error); it is reported
failed only when the plain deletion also fails, and then the filesystem is
unchanged. -/
theorem claim_C6 (env : Env) (st : St) (p : FsPath) (c : List Nat)
    (h : lookupFS st.fs p = some (Entry.file c)) (ho : env.openFails p = true) :
    ((remove_path env st p false true).1 = true ↔ env.removeFails p = false) ∧
    ((remove_path env st p false true).1 = true →
      lookupFS (remove_path env st p false true).2.fs p = none) ∧
    ((remove_path env st p false true).1 = false →
      (remove_path env st p false true).2.fs = st.fs) := by
  cases hr : env.removeFails p with
  | false =>
      rw [remove_path_file_shred_openFail_ok h ho hr]
      refine ⟨by simp, fun _ => ?_, by simp⟩
      simp [notify, lookup_eraseKey_self]
  | true =>
      rw [remove_path_file_shred_openFail_fail h ho hr]
      exact ⟨by simp, by simp, fun _ => rfl⟩

/-- Witness for C6: overwrite fails, plain deletion succeeds, the file is
removed. -/
theorem claim_C6_witness :
    lookupFS profSt.fs ["prof", "f"] = some (Entry.file [1, 2, 3]) ∧
    shredFailEnv.openFails ["prof", "f"] = true ∧
    ((remove_path shredFailEnv profSt ["prof", "f"] false true).1 = true ↔
      shredFailEnv.removeFails ["prof", "f"] = false) ∧
    ((remove_path shredFailEnv profSt ["prof", "f"] false true).1 = true →
      lookupFS (remove_path shredFailEnv profSt ["prof", "f"] false true).2.fs ["prof", "f"] =
        none) :=
  ⟨rfl, rfl, (claim_C6 shredFailEnv profSt ["prof", "f"] [1, 2, 3] rfl rfl).1,
    (claim_C6 shredFailEnv profSt ["prof", "f"] [1, 2, 3] rfl rfl).2.1⟩

/-! ## C7 -/

/-- **C7.** On an existing regular file of size `N`, non-dry removal with
shred (when the environment does not make the overwrite or the unlink
fail) appends exactly one overwrite of `N` random bytes, one durability
flush, then the unlink, and leaves the file absent.  On a directory
target, removal never performs a byte overwrite whatever the shred flag,
and (when `rmtree` does not fail) deletes the whole tree recursively as
one `rmtree` event. -/
theorem claim_C7 (env : Env) (st : St) (p : FsPath) (c : List Nat) (shred : Bool) :
    (lookupFS st.fs p = some (Entry.file c) → env.openFails p = false →
      env.removeFails p = false →
      (remove_path env st p false true).2.evs =
        st.evs ++ [Ev.write p (urandomBytes (env.rnd 0) c.length), Ev.fsync p, Ev.unlink p] ∧
      (urandomBytes (env.rnd 0) c.length).length = c.length ∧
      lookupFS (remove_path env st p false true).2.fs p = none) ∧
    (lookupFS st.fs p = some Entry.dir →
      (∃ d, (remove_path env st p false shred).2.evs = st.evs ++ d ∧
        ∀ e ∈ d, isWriteEv e = false) ∧
      (env.rmtreeFails p = false →
        (remove_path env st p false shred).2.fs = eraseTree st.fs p ∧
        (remove_path env st p false shred).2.evs = st.evs ++ [Ev.rmtreeE p])) := by
  constructor
  · intro h ho hr
    rw [remove_path_file_shred_ok h ho hr]
    refine ⟨?_, by simp [urandomBytes], ?_⟩
    · simp [notify, passEvents]
    · simp [notify, lookup_eraseKey_self]
  · intro h
    constructor
    · cases hrt : env.rmtreeFails p with
      | false =>
          rw [remove_path_dir_ok h hrt]
          exact ⟨[Ev.rmtreeE p], rfl, by simp [isWriteEv]⟩
      | true =>
          rw [remove_path_dir_fail h hrt]
          exact ⟨[], by simp [notify], by simp⟩
    · intro hrt
      rw [remove_path_dir_ok h hrt]
      exact ⟨rfl, rfl⟩

/-- Witness for C7: shreds a concrete 3-byte file (3 random bytes written,
flushed, unlinked, file gone) and tree-removes a concrete directory with
no byte overwrite. -/
theorem claim_C7_witness :
    lookupFS profSt.fs ["prof", "f"] = some (Entry.file [1, 2, 3]) ∧
    ((remove_path benignEnv profSt ["prof", "f"] false true).2.evs =
      profSt.evs ++ [Ev.write ["prof", "f"] (urandomBytes (benignEnv.rnd 0) 3),
        Ev.fsync ["prof", "f"], Ev.unlink ["prof", "f"]] ∧
      (urandomBytes (benignEnv.rnd 0) 3).length = 3 ∧
      lookupFS (remove_path benignEnv profSt ["prof", "f"] false true).2.fs ["prof", "f"] =
        none) ∧
    lookupFS profSt.fs ["prof"] = some Entry.dir ∧
    (benignEnv.rmtreeFails ["prof"] = false →
      (remove_path benignEnv profSt ["prof"] false false).2.fs = eraseTree profSt.fs ["prof"] ∧
      (remove_path benignEnv profSt ["prof"] false false).2.evs =
        profSt.evs ++ [Ev.rmtreeE ["prof"]]) := by
  refine ⟨rfl, ?_, rfl, ?_⟩
  · exact (claim_C7 benignEnv profSt ["prof", "f"] [1, 2, 3] true).1 rfl rfl rfl
  · exact ((claim_C7 benignEnv profSt ["prof"] [] false).2 rfl).2

/-! ## C10 -/

/-- **C10, counterexample.** On a nonexistent path `overwrite_and_remove`
returns `false` while the target also does not exist afterwards — refuting
the claim that it "returns false only when the file still exists
afterwards". -/
theorem claim_C10_counterexample :
    (overwrite_and_remove benignEnv emptySt ["ghost"] 1).1 = false ∧
    lookupFS (overwrite_and_remove benignEnv emptySt ["ghost"] 1).2.fs ["ghost"] = none := by
  rw [@ow_absent benignEnv emptySt ["ghost"] 1 rfl]
  exact ⟨rfl, rfl⟩

/-- **C10 (amended).** `overwrite_and_remove` is total (its catch-all
`except` shows up as a plain `Bool` result for every input and
environment); it returns `true` exactly when this very call removed the
target file, and on `false` it removed nothing — the target's existence is
exactly what it was before (so a pre-existing file still exists, and a
missing target is still missing). -/
theorem claim_C10 (env : Env) (st : St) (p : FsPath) (n : Nat) :
    ((overwrite_and_remove env st p n).1 = true ↔
      ((∃ c, lookupFS st.fs p = some (Entry.file c)) ∧
        lookupFS (overwrite_and_remove env st p n).2.fs p = none)) ∧
    ((overwrite_and_remove env st p n).1 = false →
      (lookupFS (overwrite_and_remove env st p n).2.fs p).isSome =
        (lookupFS st.fs p).isSome) := by
  cases hl : lookupFS st.fs p with
  | none =>
      rw [ow_absent hl]
      refine ⟨⟨fun h => absurd h (by simp), fun h => ?_⟩, fun _ => by simp [hl]⟩
      obtain ⟨⟨c, hc⟩, _⟩ := h
      exact Option.noConfusion hc
  | some e =>
      cases e with
      | dir =>
          rw [ow_dir hl]
          refine ⟨⟨fun h => absurd h (by simp), fun h => ?_⟩, fun _ => by simp [hl]⟩
          obtain ⟨⟨c, hc⟩, _⟩ := h
          simp at hc
      | file c =>
          cases ho : env.openFails p with
          | false =>
              cases hr : env.removeFails p with
              | false =>
                  rw [ow_file_ok hl ho hr]
                  refine ⟨⟨fun _ => ⟨⟨c, rfl⟩, by simp [lookup_eraseKey_self]⟩,
                    fun _ => rfl⟩, fun h => absurd h (by simp)⟩
              | true =>
                  rw [ow_file_removeFail hl ho hr]
                  refine ⟨⟨fun h => absurd h (by simp), fun h => absurd h.2 ?_⟩,
                    fun _ => by simp [lookup_updateFS_self, hl]⟩
                  simp [lookup_updateFS_self]
          | true =>
              cases hr : env.removeFails p with
              | false =>
                  rw [ow_file_openFail_ok hl ho hr]
                  refine ⟨⟨fun _ => ⟨⟨c, rfl⟩, by simp [lookup_eraseKey_self]⟩,
                    fun _ => rfl⟩, fun h => absurd h (by simp)⟩
              | true =>
                  rw [ow_file_openFail_fail hl ho hr]
                  exact ⟨⟨fun h => absurd h (by simp), fun h => absurd h.2 (by simp [hl])⟩,
                    fun _ => by simp [hl]⟩

/-- Witness for C10 at a concrete existing file: the call returns `true`
and the file is gone. -/
theorem claim_C10_witness :
    (overwrite_and_remove benignEnv profSt ["prof", "f"] 1).1 = true ∧
    lookupFS (overwrite_and_remove benignEnv profSt ["prof", "f"] 1).2.fs ["prof", "f"] =
      none := by
  have h := (claim_C10 benignEnv profSt ["prof", "f"] 1).1
  have hres : (overwrite_and_remove benignEnv profSt ["prof", "f"] 1).1 = true := by decide
  exact ⟨hres, (h.mp hres).2⟩

/-! ## Dry-run preservation (towards C2) -/

theorem foldl_nomut {α : Type} (f : St → α → St) (hf : ∀ s a, NoMut s (f s a)) :
    ∀ (l : List α) (st : St), NoMut st (l.foldl f st) := by
  intro l
  induction l with
  | nil => intro st; exact NoMut_rfl st
  | cons a as ih =>
      intro st
      rw [List.foldl_cons]
      exact NoMut_trans (hf st a) (ih (f st a))

theorem removeItems_dry_nomut (prof : FsPath) (opts : Options) (env : Env)
    (hd : opts.dry_run = true) :
    ∀ (ns : List String) (res : Results) (st : St),
      NoMut st (removeItems prof opts env ns res st).2 := by
  intro ns
  induction ns with
  | nil => intro res st; exact NoMut_rfl st
  | cons n ns ih =>
      intro res st
      cases hex : (lookupFS st.fs (pjoin prof n)).isSome with
      | false =>
          simp only [removeItems, hex, Bool.false_eq_true, if_false]
          exact ih res st
      | true =>
          simp only [removeItems, hex, if_true, hd]
          exact NoMut_trans (remove_path_dry_nomut env st (pjoin prof n) opts.shred) (ih _ _)

theorem processDbs_dry_nomut (prof : FsPath) (opts : Options) (env : Env)
    (hd : opts.dry_run = true) :
    ∀ (ns : List String) (res : Results) (st : St),
      NoMut st (processDbs prof opts env ns res st).2 := by
  intro ns
  induction ns with
  | nil => intro res st; exact NoMut_rfl st
  | cons n ns ih =>
      intro res st
      cases hex : (lookupFS st.fs (pjoin prof n)).isSome with
      | false =>
          simp only [processDbs, hex, Bool.false_eq_true, if_false]
          exact ih res st
      | true =>
          cases hskip : (n == "Login Data" && !opts.remove_passwords) with
          | true =>
              simp only [processDbs, hex, if_true, hskip]
              exact NoMut_trans (notify_nomut st _) (ih _ _)
          | false =>
              cases hqe : (dbQueries n).isEmpty with
              | true =>
                  simp only [processDbs, hex, if_true, hskip, Bool.false_eq_true, if_false,
                    hqe, hd]
                  exact NoMut_trans
                    (remove_path_dry_nomut env st (pjoin prof n) opts.shred) (ih _ _)
              | false =>
                  simp only [processDbs, hex, if_true, hskip, Bool.false_eq_true, if_false,
                    hqe, hd]
                  exact NoMut_trans
                    (clear_dry_nomut env st (pjoin prof n) (dbQueries n)) (ih _ _)

theorem clean_profile_dry_nomut (prof : FsPath) (opts : Options) (env : Env) (st : St)
    (hd : opts.dry_run = true) : NoMut st (clean_profile prof opts env st).2 := by
  unfold clean_profile
  exact NoMut_trans (removeItems_dry_nomut prof opts env hd COMMON_ITEMS ⟨[], []⟩ st)
    (NoMut_trans (processDbs_dry_nomut prof opts env hd dbNames _ _)
      (removeItems_dry_nomut prof opts env hd loose_files _ _))

theorem cleanProfiles_dry_nomut (opts : Options) (env : Env) (hd : opts.dry_run = true) :
    ∀ (ps : List FsPath) (st : St), NoMut st (cleanProfiles opts env ps st).2 := by
  intro ps
  induction ps with
  | nil => intro st; exact NoMut_rfl st
  | cons p ps ih =>
      intro st
      simp only [cleanProfiles]
      exact NoMut_trans (notify_nomut st _)
        (NoMut_trans (clean_profile_dry_nomut p opts env _ hd) (ih _))

theorem killLoop_dry_nomut (env : Env) (force : Bool) :
    ∀ (prs : List Proc) (st : St), NoMut st (killLoop env true force prs st) := by
  intro prs
  induction prs with
  | nil => intro st; exact NoMut_rfl st
  | cons pr prs ih =>
      intro st
      simp only [killLoop, if_true]
      exact NoMut_trans (notify_nomut st _) (ih _)

theorem kill_dry_nomut (t : String) (force : Bool) (env : Env) (st : St) :
    NoMut st (kill_browser_processes t true force env st).2 := by
  unfold kill_browser_processes
  cases hav : env.psutilAvailable with
  | false =>
      simp only [Bool.false_eq_true, if_false, if_true]
      exact notify_nomut st _
  | true =>
      simp only [if_true]
      cases hfe : (env.procs.filter (procMatch (dictGet BROWSER_PROCS t []))).isEmpty with
      | true => simp only [hfe, if_true]; exact NoMut_rfl st
      | false =>
          simp only [hfe, Bool.false_eq_true, if_false]
          exact killLoop_dry_nomut env force _ st

theorem renderProfile_nomut (verbose : Bool) (st : St) (pr : FsPath × Results) :
    NoMut st (renderProfile verbose st pr) := by
  unfold renderProfile renderDeleted renderFailed
  have h1 : NoMut st (notify (notify st ("  Profile: " ++ pstr pr.1))
      ("    Deleted/cleaned: " ++ toString pr.2.deleted.length)) :=
    NoMut_trans (notify_nomut _ _) (notify_nomut _ _)
  have h2 : ∀ s : St, NoMut s (if verbose then
      pr.2.deleted.foldl (fun s d => notify s ("      - " ++ pstr d)) s else s) := by
    intro s
    cases verbose with
    | false => exact NoMut_rfl s
    | true =>
        simp only [if_true]
        exact foldl_nomut _ (fun s' d => notify_nomut s' _) _ s
  refine NoMut_trans (NoMut_trans h1 (h2 _)) ?_
  cases hfe : pr.2.failed.isEmpty with
  | true => simp only [hfe, if_true]; exact NoMut_rfl _
  | false =>
      simp only [hfe, Bool.false_eq_true, if_false]
      exact NoMut_trans (notify_nomut _ _) (foldl_nomut _ (fun s' f => notify_nomut s' _) _ _)

theorem renderSummary_nomut (verbose : Bool) (cleaned : List (String × List (FsPath × Results)))
    (st : St) : NoMut st (renderSummary verbose cleaned st) := by
  unfold renderSummary renderBrowser
  refine NoMut_trans (notify_nomut st _) (foldl_nomut _ (fun s b => ?_) _ _)
  exact NoMut_trans (notify_nomut s _) (foldl_nomut _ (renderProfile_nomut verbose) _ _)

theorem runTargets_dry_nomut (args : Args) (opts : Options) (env : Env)
    (hd : args.dry_run = true) (ho : opts.dry_run = true) :
    ∀ (ts : List String) (ov : Overall) (st : St),
      NoMut st (runTargets args opts env ts ov st).2 := by
  intro ts
  induction ts with
  | nil => intro ov st; exact NoMut_rfl st
  | cons t ts ih =>
      intro ov st
      simp only [runTargets]
      cases hf : find_browser_userdata env st.fs t with
      | none => exact NoMut_trans (notify_nomut st _) (ih _ _)
      | some bp =>
          obtain ⟨base, profiles⟩ := bp
          cases hpe : profiles.isEmpty with
          | true =>
              simp only [hpe, if_true]
              exact NoMut_trans (notify_nomut st _) (ih _ _)
          | false =>
              simp only [hpe, Bool.false_eq_true, if_false]
              have hkill : ∀ s : St, NoMut s (if args.no_kill then s
                  else (kill_browser_processes t args.dry_run args.force_kill env s).2) := by
                intro s
                cases args.no_kill with
                | true => exact NoMut_rfl s
                | false =>
                    simp only [Bool.false_eq_true, if_false, hd]
                    exact kill_dry_nomut t args.force_kill env s
              have hls : ∀ s : St, NoMut s (if args.remove_local_state then
                  (remove_path env s (base ++ ["Local State"]) args.dry_run args.shred).2
                  else s) := by
                intro s
                cases args.remove_local_state with
                | true =>
                    simp only [if_true, hd]
                    exact remove_path_dry_nomut env s _ args.shred
                | false => exact NoMut_rfl s
              exact NoMut_trans (notify_nomut st _)
                (NoMut_trans (hkill _)
                  (NoMut_trans (cleanProfiles_dry_nomut opts env ho profiles _)
                    (NoMut_trans (hls _) (ih _ _))))

/-! ## C2 -/

/-- **C2.** With `dryRun` set, a full `run_clean` performs no mutation at
all, for every browser selection, option combination, environment
behaviour and filesystem state: the final filesystem is the initial one
and not a single destructive event (file removal, byte overwrite, or
database statement execution) is recorded. -/
theorem claim_C2 (args : Args) (env : Env) (st : St) (hd : args.dry_run = true) :
    (run_clean args env st).2.fs = st.fs ∧ (run_clean args env st).2.evs = st.evs := by
  unfold run_clean
  exact NoMut_trans
    (runTargets_dry_nomut args ⟨args.dry_run, args.shred, args.remove_passwords, args.verbose⟩
      env hd hd (targetsOf args) ⟨[], []⟩ st)
    (renderSummary_nomut args.verbose _ _)

/-- All-default arguments except `dry_run`. -/
def argsDry : Args := ⟨false, false, false, true, false, false, false, false, false, false⟩

/-- Witness for C2: a dry run over a populated profile state changes
neither the filesystem nor the event trace. -/
theorem claim_C2_witness :
    argsDry.dry_run = true ∧
    (run_clean argsDry benignEnv profSt).2.fs = profSt.fs ∧
    (run_clean argsDry benignEnv profSt).2.evs = profSt.evs :=
  ⟨rfl, claim_C2 argsDry benignEnv profSt rfl⟩

/-! ## Untouched-path machinery (towards C1) -/

theorem removeItems_avoids (prof : FsPath) (opts : Options) (env : Env) (q : FsPath) :
    ∀ (ns : List String), (∀ n ∈ ns, pathLe (pjoin prof n) q = false) →
      ∀ res st, Avoids q st (removeItems prof opts env ns res st).2 := by
  intro ns
  induction ns with
  | nil => intro _ res st; exact Avoids_rfl q st
  | cons n ns ih =>
      intro hq res st
      have hqn : pathLe (pjoin prof n) q = false := hq n (List.mem_cons_self n ns)
      have hqs : ∀ m ∈ ns, pathLe (pjoin prof m) q = false :=
        fun m hm => hq m (List.mem_cons_of_mem n hm)
      cases hex : (lookupFS st.fs (pjoin prof n)).isSome with
      | false =>
          simp only [removeItems, hex, Bool.false_eq_true, if_false]
          exact ih hqs res st
      | true =>
          simp only [removeItems, hex, if_true]
          exact Avoids_trans (remove_path_avoids hqn) (ih hqs _ _)

theorem processDbs_avoids_notin (prof : FsPath) (opts : Options) (env : Env) (q : FsPath) :
    ∀ (ns : List String), (∀ n ∈ ns, pathLe (pjoin prof n) q = false) →
      ∀ res st, Avoids q st (processDbs prof opts env ns res st).2 := by
  intro ns
  induction ns with
  | nil => intro _ res st; exact Avoids_rfl q st
  | cons n ns ih =>
      intro hq res st
      have hqn : pathLe (pjoin prof n) q = false := hq n (List.mem_cons_self n ns)
      have hqs : ∀ m ∈ ns, pathLe (pjoin prof m) q = false :=
        fun m hm => hq m (List.mem_cons_of_mem n hm)
      cases hex : (lookupFS st.fs (pjoin prof n)).isSome with
      | false =>
          simp only [processDbs, hex, Bool.false_eq_true, if_false]
          exact ih hqs res st
      | true =>
          cases hskip : (n == "Login Data" && !opts.remove_passwords) with
          | true =>
              simp only [processDbs, hex, if_true, hskip]
              exact Avoids_trans (notify_avoids q st _) (ih hqs _ _)
          | false =>
              cases hqe : (dbQueries n).isEmpty with
              | true =>
                  simp only [processDbs, hex, if_true, hskip, Bool.false_eq_true, if_false, hqe]
                  exact Avoids_trans (remove_path_avoids hqn) (ih hqs _ _)
              | false =>
                  simp only [processDbs, hex, if_true, hskip, Bool.false_eq_true, if_false, hqe]
                  exact Avoids_trans (clear_avoids (pathLe_false_ne hqn)) (ih hqs _ _)

theorem processDbs_avoids_login (prof : FsPath) (opts : Options) (env : Env) (q : FsPath)
    (hrp : opts.remove_passwords = false) :
    ∀ (ns : List String),
      (∀ n ∈ ns, ¬(n = "Login Data") → pathLe (pjoin prof n) q = false) →
      ∀ res st, Avoids q st (processDbs prof opts env ns res st).2 := by
  intro ns
  induction ns with
  | nil => intro _ res st; exact Avoids_rfl q st
  | cons n ns ih =>
      intro hq res st
      have hqs : ∀ m ∈ ns, ¬(m = "Login Data") → pathLe (pjoin prof m) q = false :=
        fun m hm => hq m (List.mem_cons_of_mem n hm)
      cases hex : (lookupFS st.fs (pjoin prof n)).isSome with
      | false =>
          simp only [processDbs, hex, Bool.false_eq_true, if_false]
          exact ih hqs res st
      | true =>
          cases hbeq : (n == "Login Data") with
          | true =>
              have hcond : (n == "Login Data" && !opts.remove_passwords) = true := by
                rw [hbeq, hrp]
                rfl
              simp only [processDbs, hex, if_true, hcond]
              exact Avoids_trans (notify_avoids q st _) (ih hqs _ _)
          | false =>
              have hne : ¬(n = "Login Data") := by
                intro he
                rw [he] at hbeq
                exact absurd hbeq (by simp)
              have hqn : pathLe (pjoin prof n) q = false :=
                hq n (List.mem_cons_self n ns) hne
              have hcond : (n == "Login Data" && !opts.remove_passwords) = false := by
                rw [hbeq]
                rfl
              cases hqe : (dbQueries n).isEmpty with
              | true =>
                  simp only [processDbs, hex, if_true, hcond, Bool.false_eq_true, if_false, hqe]
                  exact Avoids_trans (remove_path_avoids hqn) (ih hqs _ _)
              | false =>
                  simp only [processDbs, hex, if_true, hcond, Bool.false_eq_true, if_false, hqe]
                  exact Avoids_trans (clear_avoids (pathLe_false_ne hqn)) (ih hqs _ _)

theorem removeItems_res_mem (prof : FsPath) (opts : Options) (env : Env) :
    ∀ (ns : List String) (res : Results) (st : St) (x : FsPath),
      (x ∈ (removeItems prof opts env ns res st).1.deleted →
        x ∈ res.deleted ∨ ∃ n, n ∈ ns ∧ x = pjoin prof n) ∧
      (x ∈ (removeItems prof opts env ns res st).1.failed →
        x ∈ res.failed ∨ ∃ n, n ∈ ns ∧ x = pjoin prof n) := by
  intro ns
  induction ns with
  | nil =>
      intro res st x
      exact ⟨fun h => Or.inl h, fun h => Or.inl h⟩
  | cons n ns ih =>
      intro res st x
      have widen : ∀ y : FsPath, (∃ m, m ∈ ns ∧ y = pjoin prof m) →
          ∃ m, m ∈ (n :: ns) ∧ y = pjoin prof m := by
        rintro y ⟨m, hm, he⟩
        exact ⟨m, List.mem_cons_of_mem n hm, he⟩
      cases hex : (lookupFS st.fs (pjoin prof n)).isSome with
      | false =>
          simp only [removeItems, hex, Bool.false_eq_true, if_false]
          refine ⟨fun h => ?_, fun h => ?_⟩
          · rcases (ih res st x).1 h with h1 | h2
            · exact Or.inl h1
            · exact Or.inr (widen x h2)
          · rcases (ih res st x).2 h with h1 | h2
            · exact Or.inl h1
            · exact Or.inr (widen x h2)
      | true =>
          simp only [removeItems, hex, if_true]
          cases hr1 : (remove_path env st (pjoin prof n) opts.dry_run opts.shred).1 with
          | true =>
              simp only [hr1, if_true]
              refine ⟨fun h => ?_, fun h => ?_⟩
              · rcases (ih _ _ x).1 h with h1 | h2
                · rcases List.mem_append.mp h1 with h3 | h4
                  · exact Or.inl h3
                  · exact Or.inr ⟨n, List.mem_cons_self n ns, List.mem_singleton.mp h4⟩
                · exact Or.inr (widen x h2)
              · rcases (ih _ _ x).2 h with h1 | h2
                · exact Or.inl h1
                · exact Or.inr (widen x h2)
          | false =>
              simp only [hr1, Bool.false_eq_true, if_false]
              refine ⟨fun h => ?_, fun h => ?_⟩
              · rcases (ih _ _ x).1 h with h1 | h2
                · exact Or.inl h1
                · exact Or.inr (widen x h2)
              · rcases (ih _ _ x).2 h with h1 | h2
                · rcases List.mem_append.mp h1 with h3 | h4
                  · exact Or.inl h3
                  · exact Or.inr ⟨n, List.mem_cons_self n ns, List.mem_singleton.mp h4⟩
                · exact Or.inr (widen x h2)

theorem processDbs_res_mem (prof : FsPath) (opts : Options) (env : Env)
    (hrp : opts.remove_passwords = false) :
    ∀ (ns : List String) (res : Results) (st : St) (x : FsPath),
      (x ∈ (processDbs prof opts env ns res st).1.deleted →
        x ∈ res.deleted ∨ ∃ n, n ∈ ns ∧ ¬(n = "Login Data") ∧ x = pjoin prof n) ∧
      (x ∈ (processDbs prof opts env ns res st).1.failed →
        x ∈ res.failed ∨ ∃ n, n ∈ ns ∧ ¬(n = "Login Data") ∧ x = pjoin prof n) := by
  intro ns
  induction ns with
  | nil =>
      intro res st x
      exact ⟨fun h => Or.inl h, fun h => Or.inl h⟩
  | cons n ns ih =>
      intro res st x
      have widen : ∀ y : FsPath, (∃ m, m ∈ ns ∧ ¬(m = "Login Data") ∧ y = pjoin prof m) →
          ∃ m, m ∈ (n :: ns) ∧ ¬(m = "Login Data") ∧ y = pjoin prof m := by
        rintro y ⟨m, hm, hne, he⟩
        exact ⟨m, List.mem_cons_of_mem n hm, hne, he⟩
      cases hex : (lookupFS st.fs (pjoin prof n)).isSome with
      | false =>
          simp only [processDbs, hex, Bool.false_eq_true, if_false]
          refine ⟨fun h => ?_, fun h => ?_⟩
          · rcases (ih res st x).1 h with h1 | h2
            · exact Or.inl h1
            · exact Or.inr (widen x h2)
          · rcases (ih res st x).2 h with h1 | h2
            · exact Or.inl h1
            · exact Or.inr (widen x h2)
      | true =>
          cases hbeq : (n == "Login Data") with
          | true =>
              have hcond : (n == "Login Data" && !opts.remove_passwords) = true := by
                rw [hbeq, hrp]
                rfl
              simp only [processDbs, hex, if_true, hcond]
              refine ⟨fun h => ?_, fun h => ?_⟩
              · rcases (ih res _ x).1 h with h1 | h2
                · exact Or.inl h1
                · exact Or.inr (widen x h2)
              · rcases (ih res _ x).2 h with h1 | h2
                · exact Or.inl h1
                · exact Or.inr (widen x h2)
          | false =>
              have hne : ¬(n = "Login Data") := by
                intro he
                rw [he] at hbeq
                exact absurd hbeq (by simp)
              have hcond : (n == "Login Data" && !opts.remove_passwords) = false := by
                rw [hbeq]
                rfl
              have hstep : ∀ (r : Bool × St),
                  (x ∈ (processDbs prof opts env ns
                      (if r.1 then { res with deleted := res.deleted ++ [pjoin prof n] }
                        else { res with failed := res.failed ++ [pjoin prof n] }) r.2).1.deleted →
                    x ∈ res.deleted ∨
                      ∃ m, m ∈ (n :: ns) ∧ ¬(m = "Login Data") ∧ x = pjoin prof m) ∧
                  (x ∈ (processDbs prof opts env ns
                      (if r.1 then { res with deleted := res.deleted ++ [pjoin prof n] }
                        else { res with failed := res.failed ++ [pjoin prof n] }) r.2).1.failed →
                    x ∈ res.failed ∨
                      ∃ m, m ∈ (n :: ns) ∧ ¬(m = "Login Data") ∧ x = pjoin prof m) := by
                intro r
                cases hr1 : r.1 with
                | true =>
                    simp only [hr1, if_true]
                    refine ⟨fun h => ?_, fun h => ?_⟩
                    · rcases (ih _ _ x).1 h with h1 | h2
                      · rcases List.mem_append.mp h1 with h3 | h4
                        · exact Or.inl h3
                        · exact Or.inr ⟨n, List.mem_cons_self n ns, hne,
                            List.mem_singleton.mp h4⟩
                      · exact Or.inr (widen x h2)
                    · rcases (ih _ _ x).2 h with h1 | h2
                      · exact Or.inl h1
                      · exact Or.inr (widen x h2)
                | false =>
                    simp only [hr1, Bool.false_eq_true, if_false]
                    refine ⟨fun h => ?_, fun h => ?_⟩
                    · rcases (ih _ _ x).1 h with h1 | h2
                      · exact Or.inl h1
                      · exact Or.inr (widen x h2)
                    · rcases (ih _ _ x).2 h with h1 | h2
                      · rcases List.mem_append.mp h1 with h3 | h4
                        · exact Or.inl h3
                        · exact Or.inr ⟨n, List.mem_cons_self n ns, hne,
                            List.mem_singleton.mp h4⟩
                      · exact Or.inr (widen x h2)
              cases hqe : (dbQueries n).isEmpty with
              | true =>
                  simp only [processDbs, hex, if_true, hcond, Bool.false_eq_true, if_false, hqe]
                  exact hstep _
              | false =>
                  simp only [processDbs, hex, if_true, hcond, Bool.false_eq_true, if_false, hqe]
                  exact hstep _

theorem pjoin_ne_of_pathLe_false {prof : FsPath} {n m : String}
    (h : pathLe (splitSlash n) (splitSlash m) = false) :
    ¬(pjoin prof n = pjoin prof m) := by
  intro he
  have h2 := pjoin_inj he
  rw [h2, pathLe_refl] at h
  exact absurd h (by simp)

theorem removeItems_append (prof : FsPath) (opts : Options) (env : Env)
    (ns1 ns2 : List String) :
    ∀ res st, removeItems prof opts env (ns1 ++ ns2) res st =
      removeItems prof opts env ns2 (removeItems prof opts env ns1 res st).1
        (removeItems prof opts env ns1 res st).2 := by
  induction ns1 with
  | nil => intro res st; rfl
  | cons n ns ih =>
      intro res st
      simp only [List.cons_append, removeItems]
      cases hex : (lookupFS st.fs (pjoin prof n)).isSome with
      | false =>
          simp only [hex, Bool.false_eq_true, if_false]
          exact ih _ _
      | true =>
          simp only [hex, if_true]
          exact ih _ _

theorem processDbs_append (prof : FsPath) (opts : Options) (env : Env)
    (ns1 ns2 : List String) :
    ∀ res st, processDbs prof opts env (ns1 ++ ns2) res st =
      processDbs prof opts env ns2 (processDbs prof opts env ns1 res st).1
        (processDbs prof opts env ns1 res st).2 := by
  induction ns1 with
  | nil => intro res st; rfl
  | cons n ns ih =>
      intro res st
      simp only [List.cons_append, processDbs]
      cases hex : (lookupFS st.fs (pjoin prof n)).isSome with
      | false =>
          simp only [hex, Bool.false_eq_true, if_false]
          exact ih _ _
      | true =>
          cases hskip : (n == "Login Data" && !opts.remove_passwords) with
          | true =>
              simp only [hex, if_true, hskip]
              exact ih _ _
          | false =>
              cases hqe : (dbQueries n).isEmpty with
              | true =>
                  simp only [hex, if_true, hskip, Bool.false_eq_true, if_false, hqe]
                  exact ih _ _
              | false =>
                  simp only [hex, if_true, hskip, Bool.false_eq_true, if_false, hqe]
                  exact ih _ _

/-! Name-disjointness facts, computed over the concrete item lists. -/

theorem common_avoid_login :
    ∀ n ∈ COMMON_ITEMS, pathLe (splitSlash n) (splitSlash "Login Data") = false := by decide

theorem loose_avoid_login :
    ∀ n ∈ loose_files, pathLe (splitSlash n) (splitSlash "Login Data") = false := by decide

theorem db_avoid_login :
    ∀ n ∈ dbNames, ¬(n = "Login Data") →
      pathLe (splitSlash n) (splitSlash "Login Data") = false := by decide

theorem first3_avoid_login :
    ∀ n ∈ ["History", "Cookies", "Web Data"],
      pathLe (splitSlash n) (splitSlash "Login Data") = false := by decide

theorem nap_avoid_login :
    ∀ n ∈ ["Network Action Predictor"],
      pathLe (splitSlash n) (splitSlash "Login Data") = false := by decide

/-- A database-pass step whose head database exists, is not the skipped
password store, has a nonempty statement list, and sanitizes successfully:
the step rewrites the database file in place, appends one `Ev.stmts`
event, and records the path as cleaned. -/
theorem processDbs_cons_clear (prof : FsPath) (opts : Options) (env : Env) (n : String)
    (ns : List String) (res : Results) (st : St) (c : List Nat)
    (hne : (n == "Login Data" && !opts.remove_passwords) = false)
    (hqe : (dbQueries n).isEmpty = false)
    (hdry : opts.dry_run = false)
    (hc : lookupFS st.fs (pjoin prof n) = some (Entry.file c))
    (hcf : env.connectFails (pjoin prof n) = false) :
    processDbs prof opts env (n :: ns) res st =
      processDbs prof opts env ns { res with deleted := res.deleted ++ [pjoin prof n] }
        (notify { st with
          fs := updateFS st.fs (pjoin prof n) (Entry.file (env.dbApply (dbQueries n) c)),
          evs := st.evs ++ [Ev.stmts (pjoin prof n) (dbQueries n)] }
          ("Run cleanup queries on " ++ pstr (pjoin prof n))) := by
  simp only [processDbs, hc, Option.isSome_some, if_true, hne, Bool.false_eq_true, if_false,
    hqe, hdry]
  rw [clear_file_ok hc hcf]
  simp

/-- The sanitize of `Login Data` inside the database pass: with
`remove_passwords` set, a non-dry pass over the database list executes the
`Login Data` statement list against the (unlocked, existing) database file
and rewrites its bytes in place. -/
theorem processDbs_dbNames_login (prof : FsPath) (opts : Options) (env : Env)
    (res : Results) (st : St) (c : List Nat)
    (hrp : opts.remove_passwords = true) (hdry : opts.dry_run = false)
    (hc : lookupFS st.fs (pjoin prof "Login Data") = some (Entry.file c))
    (hcf : env.connectFails (pjoin prof "Login Data") = false) :
    ∃ d, (processDbs prof opts env dbNames res st).2.evs = st.evs ++ d ∧
      Ev.stmts (pjoin prof "Login Data") (dbQueries "Login Data") ∈ d ∧
      lookupFS (processDbs prof opts env dbNames res st).2.fs (pjoin prof "Login Data") =
        some (Entry.file (env.dbApply (dbQueries "Login Data") c)) := by
  have hsplit : dbNames =
      ["History", "Cookies", "Web Data"] ++ ("Login Data" :: ["Network Action Predictor"]) :=
    rfl
  rw [hsplit, processDbs_append]
  set r3 := processDbs prof opts env ["History", "Cookies", "Web Data"] res st with hr3
  have a3 : Avoids (pjoin prof "Login Data") st r3.2 :=
    processDbs_avoids_notin prof opts env (pjoin prof "Login Data")
      ["History", "Cookies", "Web Data"]
      (fun n hn => by rw [pathLe_pjoin]; exact first3_avoid_login n hn) res st
  obtain ⟨hf3, d3, he3, _⟩ := a3
  have hc3 : lookupFS r3.2.fs (pjoin prof "Login Data") = some (Entry.file c) := by
    rw [hf3]
    exact hc
  have hcond : (("Login Data" == "Login Data") && !opts.remove_passwords) = false := by
    rw [hrp]
    rfl
  have hqe : (dbQueries "Login Data").isEmpty = false := rfl
  rw [processDbs_cons_clear prof opts env "Login Data" ["Network Action Predictor"] r3.1 r3.2
    c hcond hqe hdry hc3 hcf]
  obtain ⟨hf5, d5, he5, _⟩ :=
    processDbs_avoids_notin prof opts env (pjoin prof "Login Data")
      ["Network Action Predictor"]
      (fun n hn => by rw [pathLe_pjoin]; exact nap_avoid_login n hn)
      { r3.1 with deleted := r3.1.deleted ++ [pjoin prof "Login Data"] }
      (notify { r3.2 with
        fs := updateFS r3.2.fs (pjoin prof "Login Data")
          (Entry.file (env.dbApply (dbQueries "Login Data") c)),
        evs := r3.2.evs ++ [Ev.stmts (pjoin prof "Login Data") (dbQueries "Login Data")] }
        ("Run cleanup queries on " ++ pstr (pjoin prof "Login Data")))
  refine ⟨d3 ++ (Ev.stmts (pjoin prof "Login Data") (dbQueries "Login Data") :: d5), ?_, ?_, ?_⟩
  · rw [he5]
    show (r3.2.evs ++ [Ev.stmts (pjoin prof "Login Data") (dbQueries "Login Data")]) ++ d5 =
      st.evs ++ (d3 ++ (Ev.stmts (pjoin prof "Login Data") (dbQueries "Login Data") :: d5))
    rw [he3]
    simp
  · simp
  · rw [hf5]
    show lookupFS (updateFS r3.2.fs (pjoin prof "Login Data")
      (Entry.file (env.dbApply (dbQueries "Login Data") c))) (pjoin prof "Login Data") =
      some (Entry.file (env.dbApply (dbQueries "Login Data") c))
    exact lookup_updateFS_self _ _ _

/-! ## C1 -/

/-- Default options of `Clean.py` (no flag set). -/
def optsDefault : Options := ⟨false, false, false, false⟩

/-- `--remove-passwords` only. -/
def optsRP : Options := ⟨false, false, true, false⟩

/-- `--dry-run --remove-passwords`. -/
def optsDryRP : Options := ⟨true, false, true, false⟩

/-- A profile whose only content is a `Login Data` credentials database. -/
def stLogin : St :=
  ⟨[(["prof"], Entry.dir), (["prof", "Login Data"], Entry.file [9, 9])], [], []⟩

/-- **C1, counterexample.** The claim's last clause says that whenever
`removePasswords` is set and the file exists, the credentials database is
sanitized; with `--dry-run --remove-passwords` the file exists but after
the run its bytes are unchanged and no statement was executed against
anything — it is not sanitized. -/
theorem claim_C1_counterexample :
    optsDryRP.remove_passwords = true ∧
    lookupFS stLogin.fs ["prof", "Login Data"] = some (Entry.file [9, 9]) ∧
    lookupFS (clean_profile ["prof"] optsDryRP benignEnv stLogin).2.fs
      ["prof", "Login Data"] = some (Entry.file [9, 9]) ∧
    (clean_profile ["prof"] optsDryRP benignEnv stLogin).2.evs = [] := by decide

/-- **C1 (amended).** For every profile, option combination and
environment with `removePasswords` unset, `clean_profile` never touches
the profile's `Login Data`: its entry (hence its bytes) is unchanged, no
recorded event (deletion, overwrite, or statement execution) touches its
path, and it is recorded neither as deleted nor as failed.  When
`removePasswords` is set, `dryRun` is unset, the file exists and the
database opens successfully, it is sanitized: the `Login Data` statement
list is executed against it and its bytes are rewritten in place. -/
theorem claim_C1 (prof : FsPath) (opts : Options) (env : Env) (st : St) :
    (opts.remove_passwords = false →
      Avoids (pjoin prof "Login Data") st (clean_profile prof opts env st).2 ∧
      ¬(pjoin prof "Login Data" ∈ (clean_profile prof opts env st).1.deleted) ∧
      ¬(pjoin prof "Login Data" ∈ (clean_profile prof opts env st).1.failed)) ∧
    (opts.remove_passwords = true → opts.dry_run = false →
      ∀ c, lookupFS st.fs (pjoin prof "Login Data") = some (Entry.file c) →
        env.connectFails (pjoin prof "Login Data") = false →
        ∃ d, (clean_profile prof opts env st).2.evs = st.evs ++ d ∧
          Ev.stmts (pjoin prof "Login Data") (dbQueries "Login Data") ∈ d ∧
          lookupFS (clean_profile prof opts env st).2.fs (pjoin prof "Login Data") =
            some (Entry.file (env.dbApply (dbQueries "Login Data") c))) := by
  constructor
  · intro hrp
    simp only [clean_profile]
    refine ⟨?_, ?_, ?_⟩
    · exact Avoids_trans
        (removeItems_avoids prof opts env _ COMMON_ITEMS
          (fun n hn => by rw [pathLe_pjoin]; exact common_avoid_login n hn) ⟨[], []⟩ st)
        (Avoids_trans
          (processDbs_avoids_login prof opts env _ hrp dbNames
            (fun n hn hne => by rw [pathLe_pjoin]; exact db_avoid_login n hn hne) _ _)
          (removeItems_avoids prof opts env _ loose_files
            (fun n hn => by rw [pathLe_pjoin]; exact loose_avoid_login n hn) _ _))
    · intro hmem
      rcases (removeItems_res_mem prof opts env loose_files _ _ _).1 hmem with
        h1 | ⟨n, hn, he⟩
      · rcases (processDbs_res_mem prof opts env hrp dbNames _ _ _).1 h1 with
          h2 | ⟨n, hn, hne, he⟩
        · rcases (removeItems_res_mem prof opts env COMMON_ITEMS _ _ _).1 h2 with
            h3 | ⟨n, hn, he⟩
          · simp at h3
          · exact pjoin_ne_of_pathLe_false (common_avoid_login n hn) he.symm
        · exact pjoin_ne_of_pathLe_false (db_avoid_login n hn hne) he.symm
      · exact pjoin_ne_of_pathLe_false (loose_avoid_login n hn) he.symm
    · intro hmem
      rcases (removeItems_res_mem prof opts env loose_files _ _ _).2 hmem with
        h1 | ⟨n, hn, he⟩
      · rcases (processDbs_res_mem prof opts env hrp dbNames _ _ _).2 h1 with
          h2 | ⟨n, hn, hne, he⟩
        · rcases (removeItems_res_mem prof opts env COMMON_ITEMS _ _ _).2 h2 with
            h3 | ⟨n, hn, he⟩
          · simp at h3
          · exact pjoin_ne_of_pathLe_false (common_avoid_login n hn) he.symm
        · exact pjoin_ne_of_pathLe_false (db_avoid_login n hn hne) he.symm
      · exact pjoin_ne_of_pathLe_false (loose_avoid_login n hn) he.symm
  · intro hrp hdry c hc hcf
    simp only [clean_profile]
    obtain ⟨hf1, d1, he1, _⟩ :=
      removeItems_avoids prof opts env (pjoin prof "Login Data") COMMON_ITEMS
        (fun n hn => by rw [pathLe_pjoin]; exact common_avoid_login n hn) ⟨[], []⟩ st
    have hc1 : lookupFS (removeItems prof opts env COMMON_ITEMS ⟨[], []⟩ st).2.fs
        (pjoin prof "Login Data") = some (Entry.file c) := by
      rw [hf1]
      exact hc
    obtain ⟨d2, he2, hmem2, hlook2⟩ :=
      processDbs_dbNames_login prof opts env
        (removeItems prof opts env COMMON_ITEMS ⟨[], []⟩ st).1
        (removeItems prof opts env COMMON_ITEMS ⟨[], []⟩ st).2 c hrp hdry hc1 hcf
    obtain ⟨hf3, d3, he3, _⟩ :=
      removeItems_avoids prof opts env (pjoin prof "Login Data") loose_files
        (fun n hn => by rw [pathLe_pjoin]; exact loose_avoid_login n hn)
        (processDbs prof opts env dbNames
          (removeItems prof opts env COMMON_ITEMS ⟨[], []⟩ st).1
          (removeItems prof opts env COMMON_ITEMS ⟨[], []⟩ st).2).1
        (processDbs prof opts env dbNames
          (removeItems prof opts env COMMON_ITEMS ⟨[], []⟩ st).1
          (removeItems prof opts env COMMON_ITEMS ⟨[], []⟩ st).2).2
    refine ⟨d1 ++ (d2 ++ d3), ?_, ?_, ?_⟩
    · rw [he3, he2, he1]
      simp
    · exact List.mem_append.mpr (Or.inr (List.mem_append.mpr (Or.inl hmem2)))
    · rw [hf3]
      exact hlook2

/-- Witness for C1 at concrete inputs: with `removePasswords` unset the
`Login Data` path is untouched; with it set (and no dry run) the
statement list runs against the concrete credentials file. -/
theorem claim_C1_witness :
    (optsDefault.remove_passwords = false ∧
      Avoids ["prof", "Login Data"] stLogin
        (clean_profile ["prof"] optsDefault benignEnv stLogin).2) ∧
    (optsRP.remove_passwords = true ∧ optsRP.dry_run = false ∧
      lookupFS stLogin.fs ["prof", "Login Data"] = some (Entry.file [9, 9]) ∧
      ∃ d, (clean_profile ["prof"] optsRP benignEnv stLogin).2.evs = stLogin.evs ++ d ∧
        Ev.stmts ["prof", "Login Data"] (dbQueries "Login Data") ∈ d ∧
        lookupFS (clean_profile ["prof"] optsRP benignEnv stLogin).2.fs
          ["prof", "Login Data"] =
          some (Entry.file (benignEnv.dbApply (dbQueries "Login Data") [9, 9]))) := by
  constructor
  · exact ⟨rfl, ((claim_C1 ["prof"] optsDefault benignEnv stLogin).1 rfl).1⟩
  · exact ⟨rfl, rfl, rfl,
      (claim_C1 ["prof"] optsRP benignEnv stLogin).2 rfl rfl [9, 9] rfl rfl⟩

/-! ## Idempotence machinery (towards C8) -/

theorem removeItems_nc (prof : FsPath) (opts : Options) (env : Env) :
    ∀ (ns : List String) (res : Results) (st : St),
      NoCreate st (removeItems prof opts env ns res st).2 := by
  intro ns
  induction ns with
  | nil => intro res st; exact NoCreate_rfl st
  | cons n ns ih =>
      intro res st
      cases hex : (lookupFS st.fs (pjoin prof n)).isSome with
      | false =>
          simp only [removeItems, hex, Bool.false_eq_true, if_false]
          exact ih res st
      | true =>
          simp only [removeItems, hex, if_true]
          exact NoCreate_trans (remove_path_nc env st (pjoin prof n) opts.dry_run opts.shred)
            (ih _ _)

theorem processDbs_nc (prof : FsPath) (opts : Options) (env : Env) :
    ∀ (ns : List String) (res : Results) (st : St),
      NoCreate st (processDbs prof opts env ns res st).2 := by
  intro ns
  induction ns with
  | nil => intro res st; exact NoCreate_rfl st
  | cons n ns ih =>
      intro res st
      cases hex : (lookupFS st.fs (pjoin prof n)).isSome with
      | false =>
          simp only [processDbs, hex, Bool.false_eq_true, if_false]
          exact ih res st
      | true =>
          cases hskip : (n == "Login Data" && !opts.remove_passwords) with
          | true =>
              simp only [processDbs, hex, if_true, hskip]
              exact NoCreate_trans (notify_nc st _) (ih _ _)
          | false =>
              cases hqe : (dbQueries n).isEmpty with
              | true =>
                  simp only [processDbs, hex, if_true, hskip, Bool.false_eq_true, if_false, hqe]
                  exact NoCreate_trans
                    (remove_path_nc env st (pjoin prof n) opts.dry_run opts.shred) (ih _ _)
              | false =>
                  simp only [processDbs, hex, if_true, hskip, Bool.false_eq_true, if_false, hqe]
                  exact NoCreate_trans
                    (clear_nc env st (pjoin prof n) (dbQueries n) opts.dry_run) (ih _ _)

theorem removeItems_failed_ext (prof : FsPath) (opts : Options) (env : Env) :
    ∀ (ns : List String) (res : Results) (st : St),
      ∃ d, (removeItems prof opts env ns res st).1.failed = res.failed ++ d := by
  intro ns
  induction ns with
  | nil => intro res st; exact ⟨[], by simp [removeItems]⟩
  | cons n ns ih =>
      intro res st
      cases hex : (lookupFS st.fs (pjoin prof n)).isSome with
      | false =>
          simp only [removeItems, hex, Bool.false_eq_true, if_false]
          exact ih res st
      | true =>
          simp only [removeItems, hex, if_true]
          cases hr1 : (remove_path env st (pjoin prof n) opts.dry_run opts.shred).1 with
          | true =>
              simp only [hr1, if_true]
              exact ih _ _
          | false =>
              simp only [hr1, Bool.false_eq_true, if_false]
              obtain ⟨d, hd⟩ := ih { res with failed := res.failed ++ [pjoin prof n] } _
              exact ⟨[pjoin prof n] ++ d, by rw [hd]; simp⟩

theorem processDbs_failed_ext (prof : FsPath) (opts : Options) (env : Env) :
    ∀ (ns : List String) (res : Results) (st : St),
      ∃ d, (processDbs prof opts env ns res st).1.failed = res.failed ++ d := by
  intro ns
  induction ns with
  | nil => intro res st; exact ⟨[], by simp [processDbs]⟩
  | cons n ns ih =>
      intro res st
      cases hex : (lookupFS st.fs (pjoin prof n)).isSome with
      | false =>
          simp only [processDbs, hex, Bool.false_eq_true, if_false]
          exact ih res st
      | true =>
          cases hskip : (n == "Login Data" && !opts.remove_passwords) with
          | true =>
              simp only [processDbs, hex, if_true, hskip]
              exact ih _ _
          | false =>
              have hstep : ∀ (r : Bool × St),
                  ∃ d, (processDbs prof opts env ns
                    (if r.1 then { res with deleted := res.deleted ++ [pjoin prof n] }
                      else { res with failed := res.failed ++ [pjoin prof n] }) r.2).1.failed =
                    res.failed ++ d := by
                intro r
                cases hr1 : r.1 with
                | true =>
                    simp only [hr1, if_true]
                    exact ih _ _
                | false =>
                    simp only [hr1, Bool.false_eq_true, if_false]
                    obtain ⟨d, hd⟩ := ih { res with failed := res.failed ++ [pjoin prof n] } r.2
                    exact ⟨[pjoin prof n] ++ d, by rw [hd]; simp⟩
              cases hqe : (dbQueries n).isEmpty with
              | true =>
                  simp only [processDbs, hex, if_true, hskip, Bool.false_eq_true, if_false, hqe]
                  exact hstep _
              | false =>
                  simp only [processDbs, hex, if_true, hskip, Bool.false_eq_true, if_false, hqe]
                  exact hstep _

theorem removeItems_absent_id (prof : FsPath) (opts : Options) (env : Env) :
    ∀ (ns : List String) (res : Results) (st : St),
      (∀ n ∈ ns, lookupFS st.fs (pjoin prof n) = none) →
      removeItems prof opts env ns res st = (res, st) := by
  intro ns
  induction ns with
  | nil => intro res st _; rfl
  | cons n ns ih =>
      intro res st habs
      have hex : (lookupFS st.fs (pjoin prof n)).isSome = false := by
        rw [habs n (List.mem_cons_self n ns)]
        rfl
      simp only [removeItems, hex, Bool.false_eq_true, if_false]
      exact ih res st (fun m hm => habs m (List.mem_cons_of_mem n hm))

theorem removeItems_dry_failed (prof : FsPath) (opts : Options) (env : Env)
    (hdry : opts.dry_run = true) :
    ∀ (ns : List String) (res : Results) (st : St),
      (removeItems prof opts env ns res st).1.failed = res.failed := by
  intro ns
  induction ns with
  | nil => intro res st; rfl
  | cons n ns ih =>
      intro res st
      cases hex : (lookupFS st.fs (pjoin prof n)).isSome with
      | false =>
          simp only [removeItems, hex, Bool.false_eq_true, if_false]
          exact ih res st
      | true =>
          have hsome : ∃ e, lookupFS st.fs (pjoin prof n) = some e := by
            cases hl : lookupFS st.fs (pjoin prof n) with
            | none => rw [hl] at hex; exact absurd hex (by simp)
            | some e => exact ⟨e, rfl⟩
          obtain ⟨e, he⟩ := hsome
          have hr : remove_path env st (pjoin prof n) opts.dry_run opts.shred =
              (true, notify st ("[DRY RUN] Would remove: " ++ pstr (pjoin prof n))) := by
            rw [hdry]
            exact remove_path_dry_eq he
          simp only [removeItems, hex, if_true, hr]
          exact ih _ _

theorem processDbs_dry_failed (prof : FsPath) (opts : Options) (env : Env)
    (hdry : opts.dry_run = true) :
    ∀ (ns : List String) (res : Results) (st : St),
      (processDbs prof opts env ns res st).1.failed = res.failed := by
  intro ns
  induction ns with
  | nil => intro res st; rfl
  | cons n ns ih =>
      intro res st
      cases hex : (lookupFS st.fs (pjoin prof n)).isSome with
      | false =>
          simp only [processDbs, hex, Bool.false_eq_true, if_false]
          exact ih res st
      | true =>
          have hsome : ∃ e, lookupFS st.fs (pjoin prof n) = some e := by
            cases hl : lookupFS st.fs (pjoin prof n) with
            | none => rw [hl] at hex; exact absurd hex (by simp)
            | some e => exact ⟨e, rfl⟩
          obtain ⟨e, he⟩ := hsome
          cases hskip : (n == "Login Data" && !opts.remove_passwords) with
          | true =>
              simp only [processDbs, hex, if_true, hskip]
              exact ih _ _
          | false =>
              cases hqe : (dbQueries n).isEmpty with
              | true =>
                  have hr : remove_path env st (pjoin prof n) opts.dry_run opts.shred =
                      (true, notify st ("[DRY RUN] Would remove: " ++ pstr (pjoin prof n))) := by
                    rw [hdry]
                    exact remove_path_dry_eq he
                  simp only [processDbs, hex, if_true, hskip, Bool.false_eq_true, if_false,
                    hqe, hr]
                  exact ih _ _
              | false =>
                  have hr : clear_sqlite_table env st (pjoin prof n) (dbQueries n)
                      opts.dry_run =
                      (true, notify st
                        ("[DRY RUN] Would execute cleanup queries on DB: " ++
                          pstr (pjoin prof n))) := by
                    rw [hdry]
                    exact clear_dry_eq he
                  simp only [processDbs, hex, if_true, hskip, Bool.false_eq_true, if_false,
                    hqe, hr]
                  exact ih _ _

theorem removeItems_clears (prof : FsPath) (opts : Options) (env : Env)
    (hdry : opts.dry_run = false) :
    ∀ (ns : List String) (res : Results) (st : St),
      (removeItems prof opts env ns res st).1.failed = res.failed →
      ∀ n ∈ ns, lookupFS (removeItems prof opts env ns res st).2.fs (pjoin prof n) = none := by
  intro ns
  induction ns with
  | nil =>
      intro res st _ n hn
      exact absurd hn (List.not_mem_nil n)
  | cons n ns ih =>
      intro res st hnf m hm
      cases hex : (lookupFS st.fs (pjoin prof n)).isSome with
      | false =>
          have habs : lookupFS st.fs (pjoin prof n) = none := by
            cases hl : lookupFS st.fs (pjoin prof n) with
            | none => rfl
            | some e => rw [hl] at hex; exact absurd hex (by simp)
          simp only [removeItems, hex, Bool.false_eq_true, if_false] at hnf ⊢
          rcases List.mem_cons.mp hm with h1 | h2
          · rw [h1]
            exact removeItems_nc prof opts env ns res st (pjoin prof n) habs
          · exact ih res st hnf m h2
      | true =>
          simp only [removeItems, hex, if_true] at hnf ⊢
          cases hr1 : (remove_path env st (pjoin prof n) opts.dry_run opts.shred).1 with
          | false =>
              exfalso
              simp only [hr1, Bool.false_eq_true, if_false] at hnf
              obtain ⟨d, hd⟩ := removeItems_failed_ext prof opts env ns
                { res with failed := res.failed ++ [pjoin prof n] }
                (remove_path env st (pjoin prof n) opts.dry_run opts.shred).2
              rw [hd] at hnf
              have hlen := congrArg List.length hnf
              simp at hlen
          | true =>
              simp only [hr1, if_true] at hnf ⊢
              have habs2 : lookupFS
                  (remove_path env st (pjoin prof n) opts.dry_run opts.shred).2.fs
                  (pjoin prof n) = none := by
                rw [hdry] at hr1 ⊢
                exact remove_path_true_absent hr1
              rcases List.mem_cons.mp hm with h1 | h2
              · rw [h1]
                exact removeItems_nc prof opts env ns _ _ (pjoin prof n) habs2
              · exact ih _ _ hnf m h2

/-- After a successful pass, a database path is either absent or an
unlocked regular file, so a second sanitize of it succeeds again. -/
def GoodDb (env : Env) (fs : FS) (p : FsPath) : Prop :=
  lookupFS fs p = none ∨
    (env.connectFails p = false ∧ ∃ c, lookupFS fs p = some (Entry.file c))

theorem processDbs_post (prof : FsPath) (opts : Options) (env : Env)
    (hdry : opts.dry_run = false) :
    ∀ (ns : List String),
      List.Pairwise (fun a b => pathLe (pjoin prof a) (pjoin prof b) = false ∧
        pathLe (pjoin prof b) (pjoin prof a) = false) ns →
      ∀ (res : Results) (st : St),
        (processDbs prof opts env ns res st).1.failed = res.failed →
        ∀ n ∈ ns,
          ((dbQueries n).isEmpty = true →
            lookupFS (processDbs prof opts env ns res st).2.fs (pjoin prof n) = none) ∧
          ((dbQueries n).isEmpty = false →
            ((n = "Login Data" ∧ opts.remove_passwords = false) ∨
              GoodDb env (processDbs prof opts env ns res st).2.fs (pjoin prof n))) := by
  intro ns
  induction ns with
  | nil =>
      intro _ res st _ n hn
      exact absurd hn (List.not_mem_nil n)
  | cons n ns ih =>
      intro hpw res st hnf m hm
      have hpw' := (List.pairwise_cons.mp hpw).2
      have hsep := (List.pairwise_cons.mp hpw).1
      cases hex : (lookupFS st.fs (pjoin prof n)).isSome with
      | false =>
          have habs : lookupFS st.fs (pjoin prof n) = none := by
            cases hl : lookupFS st.fs (pjoin prof n) with
            | none => rfl
            | some e => rw [hl] at hex; exact absurd hex (by simp)
          simp only [processDbs, hex, Bool.false_eq_true, if_false] at hnf ⊢
          rcases List.mem_cons.mp hm with h1 | h2
          · have hfin : lookupFS (processDbs prof opts env ns res st).2.fs (pjoin prof n) =
                none := processDbs_nc prof opts env ns res st (pjoin prof n) habs
            rw [h1]
            exact ⟨fun _ => hfin, fun _ => Or.inr (Or.inl hfin)⟩
          · exact ih hpw' res st hnf m h2
      | true =>
          cases hskip : (n == "Login Data" && !opts.remove_passwords) with
          | true =>
              have hand := Bool.and_eq_true_iff.mp hskip
              have hneq : n = "Login Data" := by
                have := hand.1
                exact beq_iff_eq.mp this
              have hrp : opts.remove_passwords = false := by
                have := hand.2
                cases hb : opts.remove_passwords
                · rfl
                · rw [hb] at this; exact absurd this (by simp)
              simp only [processDbs, hex, if_true, hskip] at hnf ⊢
              rcases List.mem_cons.mp hm with h1 | h2
              · constructor
                · intro he
                  rw [h1, hneq] at he
                  exact absurd he (by decide)
                · intro _
                  exact Or.inl ⟨h1.trans hneq, hrp⟩
              · exact ih hpw' res _ hnf m h2
          | false =>
              cases hqe : (dbQueries n).isEmpty with
              | true =>
                  simp only [processDbs, hex, if_true, hskip, Bool.false_eq_true, if_false,
                    hqe] at hnf ⊢
                  cases hr1 : (remove_path env st (pjoin prof n) opts.dry_run opts.shred).1 with
                  | false =>
                      exfalso
                      simp only [hr1, Bool.false_eq_true, if_false] at hnf
                      obtain ⟨d, hd⟩ := processDbs_failed_ext prof opts env ns
                        { res with failed := res.failed ++ [pjoin prof n] }
                        (remove_path env st (pjoin prof n) opts.dry_run opts.shred).2
                      rw [hd] at hnf
                      have hlen := congrArg List.length hnf
                      simp at hlen
                  | true =>
                      simp only [hr1, if_true] at hnf ⊢
                      have habs2 : lookupFS
                          (remove_path env st (pjoin prof n) opts.dry_run opts.shred).2.fs
                          (pjoin prof n) = none := by
                        rw [hdry] at hr1 ⊢
                        exact remove_path_true_absent hr1
                      rcases List.mem_cons.mp hm with h1 | h2
                      · have hfin : lookupFS (processDbs prof opts env ns
                            { deleted := res.deleted ++ [pjoin prof n], failed := res.failed }
                            (remove_path env st (pjoin prof n) opts.dry_run
                              opts.shred).2).2.fs (pjoin prof n) = none :=
                          processDbs_nc prof opts env ns _ _ (pjoin prof n) habs2
                        rw [h1]
                        refine ⟨fun _ => hfin, fun hne => ?_⟩
                        rw [hqe] at hne
                        exact absurd hne (by simp)
                      · exact ih hpw' _ _ hnf m h2
              | false =>
                  simp only [processDbs, hex, if_true, hskip, Bool.false_eq_true, if_false,
                    hqe] at hnf ⊢
                  cases hr1 : (clear_sqlite_table env st (pjoin prof n) (dbQueries n)
                      opts.dry_run).1 with
                  | false =>
                      exfalso
                      simp only [hr1, Bool.false_eq_true, if_false] at hnf
                      obtain ⟨d, hd⟩ := processDbs_failed_ext prof opts env ns
                        { res with failed := res.failed ++ [pjoin prof n] }
                        (clear_sqlite_table env st (pjoin prof n) (dbQueries n)
                          opts.dry_run).2
                      rw [hd] at hnf
                      have hlen := congrArg List.length hnf
                      simp at hlen
                  | true =>
                      simp only [hr1, if_true] at hnf ⊢
                      rw [hdry] at hr1
                      obtain ⟨hcf, c, hcfile, hclook⟩ := clear_true_inv hr1
                      rcases List.mem_cons.mp hm with h1 | h2
                      · have hframe : lookupFS (processDbs prof opts env ns
                            { deleted := res.deleted ++ [pjoin prof n], failed := res.failed }
                            (clear_sqlite_table env st (pjoin prof n) (dbQueries n)
                              opts.dry_run).2).2.fs (pjoin prof n) =
                            lookupFS (clear_sqlite_table env st (pjoin prof n) (dbQueries n)
                              opts.dry_run).2.fs (pjoin prof n) :=
                          (processDbs_avoids_notin prof opts env (pjoin prof n) ns
                            (fun b hb => (hsep b hb).2) _ _).1
                        rw [h1]
                        refine ⟨fun he => ?_, fun _ => ?_⟩
                        · rw [hqe] at he
                          exact absurd he (by simp)
                        · refine Or.inr (Or.inr ⟨hcf, env.dbApply (dbQueries n) c, ?_⟩)
                          rw [hframe, hdry]
                          exact hclook
                      · exact ih hpw' _ _ hnf m h2

/-- Is an event an actual deletion (file unlink or tree removal)? -/
def isRemovalEv : Ev → Bool
  | Ev.unlink _ => true
  | Ev.rmtreeE _ => true
  | _ => false

theorem processDbs_absent_id (prof : FsPath) (opts : Options) (env : Env) :
    ∀ (ns : List String) (res : Results) (st : St),
      (∀ n ∈ ns, lookupFS st.fs (pjoin prof n) = none) →
      processDbs prof opts env ns res st = (res, st) := by
  intro ns
  induction ns with
  | nil => intro res st _; rfl
  | cons n ns ih =>
      intro res st habs
      have hex : (lookupFS st.fs (pjoin prof n)).isSome = false := by
        rw [habs n (List.mem_cons_self n ns)]
        rfl
      simp only [processDbs, hex, Bool.false_eq_true, if_false]
      exact ih res st (fun m hm => habs m (List.mem_cons_of_mem n hm))

/-- A second database pass over paths that a fully successful pass has
left behind: every sanitize succeeds again (no failures) and the only
events it adds are statement executions — no file or tree deletions. -/
theorem processDbs_second (prof : FsPath) (opts : Options) (env : Env)
    (hdry : opts.dry_run = false) :
    ∀ (ns : List String),
      List.Pairwise (fun a b => pathLe (pjoin prof a) (pjoin prof b) = false ∧
        pathLe (pjoin prof b) (pjoin prof a) = false) ns →
      ∀ (res : Results) (st : St),
        (∀ n ∈ ns,
          ((dbQueries n).isEmpty = true → lookupFS st.fs (pjoin prof n) = none) ∧
          ((dbQueries n).isEmpty = false →
            ((n = "Login Data" ∧ opts.remove_passwords = false) ∨
              GoodDb env st.fs (pjoin prof n)))) →
        (processDbs prof opts env ns res st).1.failed = res.failed ∧
        (∃ d, (processDbs prof opts env ns res st).2.evs = st.evs ++ d ∧
          ∀ e ∈ d, isRemovalEv e = false) := by
  intro ns
  induction ns with
  | nil =>
      intro _ res st _
      exact ⟨rfl, [], by simp [processDbs], by simp⟩
  | cons n ns ih =>
      intro hpw res st hcond
      have hpw' := (List.pairwise_cons.mp hpw).2
      have hsep := (List.pairwise_cons.mp hpw).1
      have hcn := hcond n (List.mem_cons_self n ns)
      have hcond' : ∀ m ∈ ns,
          ((dbQueries m).isEmpty = true → lookupFS st.fs (pjoin prof m) = none) ∧
          ((dbQueries m).isEmpty = false →
            ((m = "Login Data" ∧ opts.remove_passwords = false) ∨
              GoodDb env st.fs (pjoin prof m))) :=
        fun m hm => hcond m (List.mem_cons_of_mem n hm)
      cases hex : (lookupFS st.fs (pjoin prof n)).isSome with
      | false =>
          simp only [processDbs, hex, Bool.false_eq_true, if_false]
          exact ih hpw' res st hcond'
      | true =>
          cases hskip : (n == "Login Data" && !opts.remove_passwords) with
          | true =>
              simp only [processDbs, hex, if_true, hskip]
              obtain ⟨hf, d, hd, hdr⟩ := ih hpw' res
                (notify st
                  "Skipping saved passwords DB (Login Data). Use --remove-passwords to remove.")
                hcond'
              exact ⟨hf, d, hd, hdr⟩
          | false =>
              cases hqe : (dbQueries n).isEmpty with
              | true =>
                  exfalso
                  have habs := hcn.1 hqe
                  rw [habs] at hex
                  exact absurd hex (by simp)
              | false =>
                  have hgood := hcn.2 hqe
                  have hgood' : GoodDb env st.fs (pjoin prof n) := by
                    rcases hgood with ⟨hne, hrp⟩ | hg
                    · exfalso
                      rw [hne, hrp] at hskip
                      exact absurd hskip (by simp)
                    · exact hg
                  rcases hgood' with habs | ⟨hcf, c, hfile⟩
                  · exfalso
                    rw [habs] at hex
                    exact absurd hex (by simp)
                  · rw [processDbs_cons_clear prof opts env n ns res st c hskip hqe hdry
                      hfile hcf]
                    have hcondMid : ∀ m ∈ ns,
                        ((dbQueries m).isEmpty = true →
                          lookupFS (notify { st with
                            fs := updateFS st.fs (pjoin prof n)
                              (Entry.file (env.dbApply (dbQueries n) c)),
                            evs := st.evs ++ [Ev.stmts (pjoin prof n) (dbQueries n)] }
                            ("Run cleanup queries on " ++ pstr (pjoin prof n))).fs
                            (pjoin prof m) = none) ∧
                        ((dbQueries m).isEmpty = false →
                          ((m = "Login Data" ∧ opts.remove_passwords = false) ∨
                            GoodDb env (notify { st with
                              fs := updateFS st.fs (pjoin prof n)
                                (Entry.file (env.dbApply (dbQueries n) c)),
                              evs := st.evs ++ [Ev.stmts (pjoin prof n) (dbQueries n)] }
                              ("Run cleanup queries on " ++ pstr (pjoin prof n))).fs
                              (pjoin prof m))) := by
                      intro m hm
                      have hne : pjoin prof m ≠ pjoin prof n :=
                        Ne.symm (pathLe_false_ne (hsep m hm).2)
                      have hlk : lookupFS
                          (updateFS st.fs (pjoin prof n)
                            (Entry.file (env.dbApply (dbQueries n) c)))
                          (pjoin prof m) = lookupFS st.fs (pjoin prof m) :=
                        lookup_updateFS_ne st.fs (pjoin prof n) (pjoin prof m) _ hne
                      constructor
                      · intro he
                        show lookupFS (updateFS st.fs (pjoin prof n) _) (pjoin prof m) = none
                        rw [hlk]
                        exact (hcond m (List.mem_cons_of_mem n hm)).1 he
                      · intro he
                        rcases (hcond m (List.mem_cons_of_mem n hm)).2 he with hl | hg
                        · exact Or.inl hl
                        · refine Or.inr ?_
                          rcases hg with hab | ⟨hcf2, c2, hf2⟩
                          · refine Or.inl ?_
                            show lookupFS (updateFS st.fs (pjoin prof n)
                              (Entry.file (env.dbApply (dbQueries n) c))) (pjoin prof m) = none
                            rw [hlk]
                            exact hab
                          · refine Or.inr ⟨hcf2, c2, ?_⟩
                            show lookupFS (updateFS st.fs (pjoin prof n)
                              (Entry.file (env.dbApply (dbQueries n) c))) (pjoin prof m) =
                              some (Entry.file c2)
                            rw [hlk]
                            exact hf2
                    obtain ⟨hf, d, hd, hdr⟩ := ih hpw'
                      { res with deleted := res.deleted ++ [pjoin prof n] }
                      (notify { st with
                        fs := updateFS st.fs (pjoin prof n)
                          (Entry.file (env.dbApply (dbQueries n) c)),
                        evs := st.evs ++ [Ev.stmts (pjoin prof n) (dbQueries n)] }
                        ("Run cleanup queries on " ++ pstr (pjoin prof n))) hcondMid
                    refine ⟨hf, Ev.stmts (pjoin prof n) (dbQueries n) :: d, ?_, ?_⟩
                    · rw [hd]
                      show (st.evs ++ [Ev.stmts (pjoin prof n) (dbQueries n)]) ++ d =
                        st.evs ++ (Ev.stmts (pjoin prof n) (dbQueries n) :: d)
                      simp
                    · intro e he
                      rcases List.mem_cons.mp he with h1 | h2
                      · rw [h1]
                        rfl
                      · exact hdr e h2

theorem clean_profile_dry_failed (prof : FsPath) (opts : Options) (env : Env) (st : St)
    (hdry : opts.dry_run = true) : (clean_profile prof opts env st).1.failed = [] := by
  simp only [clean_profile]
  rw [removeItems_dry_failed prof opts env hdry loose_files _ _,
    processDbs_dry_failed prof opts env hdry dbNames _ _,
    removeItems_dry_failed prof opts env hdry COMMON_ITEMS _ _]

theorem dbNames_pairwise_split :
    List.Pairwise (fun a b => pathLe (splitSlash a) (splitSlash b) = false ∧
      pathLe (splitSlash b) (splitSlash a) = false) dbNames := by decide

theorem loose_db_sep :
    ∀ m ∈ loose_files, ∀ n ∈ dbNames,
      pathLe (splitSlash m) (splitSlash n) = false := by decide

theorem dbNames_pairwise (prof : FsPath) :
    List.Pairwise (fun a b => pathLe (pjoin prof a) (pjoin prof b) = false ∧
      pathLe (pjoin prof b) (pjoin prof a) = false) dbNames := by
  refine List.Pairwise.imp ?_ dbNames_pairwise_split
  intro a b hab
  rw [pathLe_pjoin, pathLe_pjoin]
  exact hab

/-- Every target name `clean_profile` can ever touch. -/
def allTargetNames : List String := COMMON_ITEMS ++ dbNames ++ loose_files

/-- After a fully successful non-dry `clean_profile`, every path-removal
target is gone, and every statement-sanitized database is either absent or
still an unlocked regular file. -/
theorem clean_profile_post (prof : FsPath) (opts : Options) (env : Env) (st : St)
    (hdry : opts.dry_run = false)
    (hfail : (clean_profile prof opts env st).1.failed = []) :
    (∀ n ∈ COMMON_ITEMS,
      lookupFS (clean_profile prof opts env st).2.fs (pjoin prof n) = none) ∧
    (∀ n ∈ loose_files,
      lookupFS (clean_profile prof opts env st).2.fs (pjoin prof n) = none) ∧
    (∀ n ∈ dbNames,
      ((dbQueries n).isEmpty = true →
        lookupFS (clean_profile prof opts env st).2.fs (pjoin prof n) = none) ∧
      ((dbQueries n).isEmpty = false →
        ((n = "Login Data" ∧ opts.remove_passwords = false) ∨
          GoodDb env (clean_profile prof opts env st).2.fs (pjoin prof n)))) := by
  simp only [clean_profile] at hfail ⊢
  obtain ⟨d1, hd1⟩ := removeItems_failed_ext prof opts env COMMON_ITEMS ⟨[], []⟩ st
  obtain ⟨d2, hd2⟩ := processDbs_failed_ext prof opts env dbNames
    (removeItems prof opts env COMMON_ITEMS ⟨[], []⟩ st).1
    (removeItems prof opts env COMMON_ITEMS ⟨[], []⟩ st).2
  obtain ⟨d3, hd3⟩ := removeItems_failed_ext prof opts env loose_files
    (processDbs prof opts env dbNames
      (removeItems prof opts env COMMON_ITEMS ⟨[], []⟩ st).1
      (removeItems prof opts env COMMON_ITEMS ⟨[], []⟩ st).2).1
    (processDbs prof opts env dbNames
      (removeItems prof opts env COMMON_ITEMS ⟨[], []⟩ st).1
      (removeItems prof opts env COMMON_ITEMS ⟨[], []⟩ st).2).2
  rw [hd3, hd2, hd1] at hfail
  simp only [List.append_assoc, List.append_eq_nil] at hfail
  obtain ⟨h0, h1n, h2n, h3n⟩ := hfail
  have hC : (removeItems prof opts env COMMON_ITEMS ⟨[], []⟩ st).1.failed =
      (⟨[], []⟩ : Results).failed := by
    rw [hd1, h1n]
    simp
  have hD : (processDbs prof opts env dbNames
      (removeItems prof opts env COMMON_ITEMS ⟨[], []⟩ st).1
      (removeItems prof opts env COMMON_ITEMS ⟨[], []⟩ st).2).1.failed =
      (removeItems prof opts env COMMON_ITEMS ⟨[], []⟩ st).1.failed := by
    rw [hd2, h2n]
    simp
  have hL : (removeItems prof opts env loose_files
      (processDbs prof opts env dbNames
        (removeItems prof opts env COMMON_ITEMS ⟨[], []⟩ st).1
        (removeItems prof opts env COMMON_ITEMS ⟨[], []⟩ st).2).1
      (processDbs prof opts env dbNames
        (removeItems prof opts env COMMON_ITEMS ⟨[], []⟩ st).1
        (removeItems prof opts env COMMON_ITEMS ⟨[], []⟩ st).2).2).1.failed =
      (processDbs prof opts env dbNames
        (removeItems prof opts env COMMON_ITEMS ⟨[], []⟩ st).1
        (removeItems prof opts env COMMON_ITEMS ⟨[], []⟩ st).2).1.failed := by
    rw [hd3, h3n]
    simp
  refine ⟨?_, ?_, ?_⟩
  · intro n hn
    have hA := removeItems_clears prof opts env hdry COMMON_ITEMS ⟨[], []⟩ st hC n hn
    exact removeItems_nc prof opts env loose_files _ _ (pjoin prof n)
      (processDbs_nc prof opts env dbNames _ _ (pjoin prof n) hA)
  · intro n hn
    exact removeItems_clears prof opts env hdry loose_files _ _ hL n hn
  · intro n hn
    have hpost := processDbs_post prof opts env hdry dbNames (dbNames_pairwise prof) _ _
      hD n hn
    have hframe : lookupFS (removeItems prof opts env loose_files
        (processDbs prof opts env dbNames
          (removeItems prof opts env COMMON_ITEMS ⟨[], []⟩ st).1
          (removeItems prof opts env COMMON_ITEMS ⟨[], []⟩ st).2).1
        (processDbs prof opts env dbNames
          (removeItems prof opts env COMMON_ITEMS ⟨[], []⟩ st).1
          (removeItems prof opts env COMMON_ITEMS ⟨[], []⟩ st).2).2).2.fs
        (pjoin prof n) =
        lookupFS (processDbs prof opts env dbNames
          (removeItems prof opts env COMMON_ITEMS ⟨[], []⟩ st).1
          (removeItems prof opts env COMMON_ITEMS ⟨[], []⟩ st).2).2.fs (pjoin prof n) :=
      (removeItems_avoids prof opts env (pjoin prof n) loose_files
        (fun m hm => by rw [pathLe_pjoin]; exact loose_db_sep m hm n hn) _ _).1
    constructor
    · intro he
      rw [hframe]
      exact hpost.1 he
    · intro he
      rcases hpost.2 he with hl | hg
      · exact Or.inl hl
      · refine Or.inr ?_
        rcases hg with hab | ⟨hcf, c, hf⟩
        · exact Or.inl (by rw [hframe]; exact hab)
        · exact Or.inr ⟨hcf, c, by rw [hframe]; exact hf⟩

/-- A non-dry `clean_profile` run over a state in which every path-removal
target is absent and every statement-sanitized database is absent or an
unlocked file: it records no failure and performs no file or tree
deletion. -/
theorem clean_profile_run2 (prof : FsPath) (opts : Options) (env : Env) (st : St)
    (hdry : opts.dry_run = false)
    (hcommon : ∀ n ∈ COMMON_ITEMS, lookupFS st.fs (pjoin prof n) = none)
    (hloose : ∀ n ∈ loose_files, lookupFS st.fs (pjoin prof n) = none)
    (hdb : ∀ n ∈ dbNames,
      ((dbQueries n).isEmpty = true → lookupFS st.fs (pjoin prof n) = none) ∧
      ((dbQueries n).isEmpty = false →
        ((n = "Login Data" ∧ opts.remove_passwords = false) ∨
          GoodDb env st.fs (pjoin prof n)))) :
    (clean_profile prof opts env st).1.failed = [] ∧
    ∃ d, (clean_profile prof opts env st).2.evs = st.evs ++ d ∧
      ∀ e ∈ d, isRemovalEv e = false := by
  simp only [clean_profile]
  simp only [removeItems_absent_id prof opts env COMMON_ITEMS ⟨[], []⟩ st hcommon]
  obtain ⟨hf2, d2, hd2, hdr2⟩ :=
    processDbs_second prof opts env hdry dbNames (dbNames_pairwise prof) ⟨[], []⟩ st hdb
  have hlo : ∀ n ∈ loose_files,
      lookupFS (processDbs prof opts env dbNames ⟨[], []⟩ st).2.fs (pjoin prof n) = none :=
    fun n hn => processDbs_nc prof opts env dbNames ⟨[], []⟩ st (pjoin prof n) (hloose n hn)
  simp only [removeItems_absent_id prof opts env loose_files
    (processDbs prof opts env dbNames ⟨[], []⟩ st).1
    (processDbs prof opts env dbNames ⟨[], []⟩ st).2 hlo]
  exact ⟨hf2, d2, hd2, hdr2⟩

/-- **C8.** A `clean_profile` run over a profile with no target present
records zero deleted and zero failed items and leaves everything (state,
events, log) unchanged; and running the cleaner twice in a row, the second
run immediately after a fully successful first run, yields zero failures
and zero additional deletions (no file unlink and no tree removal at all)
on the second run, for every option combination and environment. -/
theorem claim_C8 (prof : FsPath) (opts : Options) (env : Env) (st : St) :
    ((∀ n ∈ allTargetNames, lookupFS st.fs (pjoin prof n) = none) →
      clean_profile prof opts env st = (⟨[], []⟩, st)) ∧
    ((clean_profile prof opts env st).1.failed = [] →
      (clean_profile prof opts env (clean_profile prof opts env st).2).1.failed = [] ∧
      ∃ d, (clean_profile prof opts env (clean_profile prof opts env st).2).2.evs =
          (clean_profile prof opts env st).2.evs ++ d ∧
        ∀ e ∈ d, isRemovalEv e = false) := by
  constructor
  · intro habs
    have hc : ∀ n ∈ COMMON_ITEMS, lookupFS st.fs (pjoin prof n) = none := fun n hn =>
      habs n (List.mem_append.mpr (Or.inl (List.mem_append.mpr (Or.inl hn))))
    have hd : ∀ n ∈ dbNames, lookupFS st.fs (pjoin prof n) = none := fun n hn =>
      habs n (List.mem_append.mpr (Or.inl (List.mem_append.mpr (Or.inr hn))))
    have hl : ∀ n ∈ loose_files, lookupFS st.fs (pjoin prof n) = none := fun n hn =>
      habs n (List.mem_append.mpr (Or.inr hn))
    simp only [clean_profile,
      removeItems_absent_id prof opts env COMMON_ITEMS ⟨[], []⟩ st hc,
      processDbs_absent_id prof opts env dbNames ⟨[], []⟩ st hd,
      removeItems_absent_id prof opts env loose_files ⟨[], []⟩ st hl]
  · intro hfail
    cases hdry : opts.dry_run with
    | true =>
        refine ⟨clean_profile_dry_failed prof opts env _ hdry, [], ?_, by simp⟩
        rw [List.append_nil]
        exact (clean_profile_dry_nomut prof opts env _ hdry).2
    | false =>
        obtain ⟨hP1, hPL, hPdb⟩ := clean_profile_post prof opts env st hdry hfail
        exact clean_profile_run2 prof opts env (clean_profile prof opts env st).2 hdry
          hP1 hPL hPdb

/-- A populated profile: a cache directory to delete and a History
database to sanitize. -/
def stC8 : St :=
  ⟨[(["prof"], Entry.dir), (["prof", "Cache"], Entry.dir),
    (["prof", "Cache", "f0"], Entry.file [7]), (["prof", "History"], Entry.file [1, 2])],
   [], []⟩

/-- Witness for C8: an empty profile yields the no-op result, and a second
run after a successful concrete first run (which deletes the cache tree
and sanitizes the History database) has zero failures and no deletion
events. -/
theorem claim_C8_witness :
    ((∀ n ∈ allTargetNames, lookupFS emptySt.fs (pjoin ["p"] n) = none) ∧
      clean_profile ["p"] optsDefault benignEnv emptySt = (⟨[], []⟩, emptySt)) ∧
    ((clean_profile ["prof"] optsDefault benignEnv stC8).1.failed = [] ∧
      (clean_profile ["prof"] optsDefault benignEnv
        (clean_profile ["prof"] optsDefault benignEnv stC8).2).1.failed = [] ∧
      ∃ d, (clean_profile ["prof"] optsDefault benignEnv
          (clean_profile ["prof"] optsDefault benignEnv stC8).2).2.evs =
          (clean_profile ["prof"] optsDefault benignEnv stC8).2.evs ++ d ∧
        ∀ e ∈ d, isRemovalEv e = false) := by
  constructor
  · have h : ∀ n ∈ allTargetNames, lookupFS emptySt.fs (pjoin ["p"] n) = none := by decide
    exact ⟨h, (claim_C8 ["p"] optsDefault benignEnv emptySt).1 h⟩
  · have h : (clean_profile ["prof"] optsDefault benignEnv stC8).1.failed = [] := by decide
    exact ⟨h, (claim_C8 ["prof"] optsDefault benignEnv stC8).2 h⟩

/-! ## Summary and coverage machinery (towards C4) -/

/-- The log only grows. -/
def LogExt (st st' : St) : Prop := ∃ d, st'.log = st.log ++ d

theorem LogExt_rfl (st : St) : LogExt st st := ⟨[], by simp⟩

theorem LogExt_trans {a b c : St} (h1 : LogExt a b) (h2 : LogExt b c) : LogExt a c := by
  obtain ⟨d1, hd1⟩ := h1
  obtain ⟨d2, hd2⟩ := h2
  exact ⟨d1 ++ d2, by rw [hd2, hd1, List.append_assoc]⟩

theorem notify_logext (st : St) (m : String) : LogExt st (notify st m) := ⟨[m], rfl⟩

theorem mem_log_of_logext {x : String} {st st' : St} (h : x ∈ st.log)
    (he : LogExt st st') : x ∈ st'.log := by
  obtain ⟨d, hd⟩ := he
  rw [hd]
  exact List.mem_append.mpr (Or.inl h)

theorem foldl_logext {α : Type} (f : St → α → St) (hf : ∀ s a, LogExt s (f s a)) :
    ∀ (l : List α) (st : St), LogExt st (l.foldl f st) := by
  intro l
  induction l with
  | nil => intro st; exact LogExt_rfl st
  | cons a as ih =>
      intro st
      rw [List.foldl_cons]
      exact LogExt_trans (hf st a) (ih (f st a))

theorem renderProfile_logext (verbose : Bool) (st : St) (pr : FsPath × Results) :
    LogExt st (renderProfile verbose st pr) := by
  unfold renderProfile renderDeleted renderFailed
  have h1 : LogExt st (notify (notify st ("  Profile: " ++ pstr pr.1))
      ("    Deleted/cleaned: " ++ toString pr.2.deleted.length)) :=
    LogExt_trans (notify_logext _ _) (notify_logext _ _)
  have h2 : ∀ s : St, LogExt s (if verbose then
      pr.2.deleted.foldl (fun s d => notify s ("      - " ++ pstr d)) s else s) := by
    intro s
    cases verbose with
    | false => exact LogExt_rfl s
    | true =>
        simp only [if_true]
        exact foldl_logext _ (fun s' d => notify_logext s' _) _ s
  refine LogExt_trans (LogExt_trans h1 (h2 _)) ?_
  cases hfe : pr.2.failed.isEmpty with
  | true => simp only [hfe, if_true]; exact LogExt_rfl _
  | false =>
      simp only [hfe, Bool.false_eq_true, if_false]
      exact LogExt_trans (notify_logext _ _)
        (foldl_logext _ (fun s' f => notify_logext s' _) _ _)

theorem renderBrowser_logext (verbose : Bool) (st : St)
    (b : String × List (FsPath × Results)) : LogExt st (renderBrowser verbose st b) := by
  unfold renderBrowser
  exact LogExt_trans (notify_logext st _) (foldl_logext _ (renderProfile_logext verbose) _ _)

theorem renderSummary_header (verbose : Bool)
    (cleaned : List (String × List (FsPath × Results))) (st : St) :
    summaryHeader ∈ (renderSummary verbose cleaned st).log := by
  unfold renderSummary
  have h0 : summaryHeader ∈ (notify st summaryHeader).log := by simp [notify]
  exact mem_log_of_logext h0 (foldl_logext _ (renderBrowser_logext verbose) _ _)

theorem renderSummary_browser (verbose : Bool) :
    ∀ (cleaned : List (String × List (FsPath × Results))) (st : St) (b : String)
      (prs : List (FsPath × Results)), (b, prs) ∈ cleaned →
      ("Browser: " ++ b) ∈ (renderSummary verbose cleaned st).log := by
  unfold renderSummary
  intro cleaned
  suffices h : ∀ (cleaned : List (String × List (FsPath × Results))) (st : St) (b : String)
      (prs : List (FsPath × Results)), (b, prs) ∈ cleaned →
      ("Browser: " ++ b) ∈ (cleaned.foldl (renderBrowser verbose) st).log by
    intro st b prs hm
    exact h cleaned _ b prs hm
  intro cl
  induction cl with
  | nil =>
      intro st b prs hm
      exact absurd hm (List.not_mem_nil _)
  | cons e es ih =>
      intro st b prs hm
      rw [List.foldl_cons]
      rcases List.mem_cons.mp hm with h1 | h2
      · have hmem : ("Browser: " ++ b) ∈ (renderBrowser verbose st e).log := by
          rw [← h1]
          unfold renderBrowser
          have h0 : ("Browser: " ++ b) ∈ (notify st ("Browser: " ++ b)).log := by
            simp [notify]
          exact mem_log_of_logext h0 (foldl_logext _ (renderProfile_logext verbose) _ _)
        exact mem_log_of_logext hmem (foldl_logext _ (renderBrowser_logext verbose) _ _)
      · exact ih _ b prs h2

theorem runTargets_ov_mono (args : Args) (opts : Options) (env : Env) :
    ∀ (ts : List String) (ov : Overall) (st : St),
      (∀ x, x ∈ ov.skipped → x ∈ (runTargets args opts env ts ov st).1.skipped) ∧
      (∀ e, e ∈ ov.cleaned → e ∈ (runTargets args opts env ts ov st).1.cleaned) := by
  intro ts
  induction ts with
  | nil => intro ov st; exact ⟨fun x h => h, fun e h => h⟩
  | cons t ts ih =>
      intro ov st
      simp only [runTargets]
      cases hf : find_browser_userdata env st.fs t with
      | none =>
          refine ⟨fun x h => (ih _ _).1 x ?_, fun e h => (ih _ _).2 e ?_⟩
          · exact List.mem_append.mpr (Or.inl h)
          · exact h
      | some bp =>
          obtain ⟨base, profiles⟩ := bp
          cases hpe : profiles.isEmpty with
          | true =>
              simp only [hpe, if_true]
              refine ⟨fun x h => (ih _ _).1 x ?_, fun e h => (ih _ _).2 e ?_⟩
              · exact List.mem_append.mpr (Or.inl h)
              · exact h
          | false =>
              simp only [hpe, Bool.false_eq_true, if_false]
              refine ⟨fun x h => (ih _ _).1 x h, fun e h => (ih _ _).2 e ?_⟩
              exact List.mem_append.mpr (Or.inl h)

theorem runTargets_coverage (args : Args) (opts : Options) (env : Env) :
    ∀ (ts : List String) (ov : Overall) (st : St) (t : String), t ∈ ts →
      t ∈ (runTargets args opts env ts ov st).1.skipped ∨
      ∃ prs, (t, prs) ∈ (runTargets args opts env ts ov st).1.cleaned := by
  intro ts
  induction ts with
  | nil =>
      intro ov st t ht
      exact absurd ht (List.not_mem_nil t)
  | cons t0 ts ih =>
      intro ov st t ht
      simp only [runTargets]
      rcases List.mem_cons.mp ht with h1 | h2
      · cases hf : find_browser_userdata env st.fs t0 with
        | none =>
            refine Or.inl ((runTargets_ov_mono args opts env ts _ _).1 t ?_)
            rw [h1]
            exact List.mem_append.mpr (Or.inr (List.mem_singleton.mpr rfl))
        | some bp =>
            obtain ⟨base, profiles⟩ := bp
            cases hpe : profiles.isEmpty with
            | true =>
                simp only [hpe, if_true]
                refine Or.inl ((runTargets_ov_mono args opts env ts _ _).1 t ?_)
                rw [h1]
                exact List.mem_append.mpr (Or.inr (List.mem_singleton.mpr rfl))
            | false =>
                simp only [hpe, Bool.false_eq_true, if_false]
                refine Or.inr ⟨(cleanProfiles opts env profiles
                  (if args.no_kill then
                    notify st ("Preparing to clean " ++ t0 ++ ". Profiles: " ++
                      toString profiles.length)
                  else (kill_browser_processes t0 args.dry_run args.force_kill env
                    (notify st ("Preparing to clean " ++ t0 ++ ". Profiles: " ++
                      toString profiles.length))).2)).1,
                  (runTargets_ov_mono args opts env ts _ _).2 _ ?_⟩
                rw [h1]
                exact List.mem_append.mpr (Or.inr (List.mem_singleton.mpr rfl))
      · cases hf : find_browser_userdata env st.fs t0 with
        | none => exact ih _ _ t h2
        | some bp =>
            obtain ⟨base, profiles⟩ := bp
            cases hpe : profiles.isEmpty with
            | true =>
                simp only [hpe, if_true]
                exact ih _ _ t h2
            | false =>
                simp only [hpe, Bool.false_eq_true, if_false]
                exact ih _ _ t h2

/-! ## C4 -/

/-- **C4.** For every browser selection, option combination, environment
behaviour (arbitrary per-item and per-process failures) and filesystem
state, `run_clean` runs to completion: every selected browser ends up
either recorded as skipped or with a per-profile results entry in
`cleaned`, the end-of-run summary header is always printed, and the
summary lists every cleaned browser — no failure of any lower layer
aborts the orchestrator. -/
theorem claim_C4 (args : Args) (env : Env) (st : St) :
    summaryHeader ∈ (run_clean args env st).2.log ∧
    (∀ t ∈ targetsOf args,
      t ∈ (run_clean args env st).1.skipped ∨
      ∃ prs, (t, prs) ∈ (run_clean args env st).1.cleaned) ∧
    (∀ b prs, (b, prs) ∈ (run_clean args env st).1.cleaned →
      ("Browser: " ++ b) ∈ (run_clean args env st).2.log) := by
  simp only [run_clean]
  refine ⟨renderSummary_header _ _ _, ?_, ?_⟩
  · intro t ht
    exact runTargets_coverage args _ env (targetsOf args) ⟨[], []⟩ st t ht
  · intro b prs h
    exact renderSummary_browser args.verbose _ _ b prs h

/-- All-default arguments. -/
def argsDefault : Args :=
  ⟨false, false, false, false, false, false, false, false, false, false⟩

/-- Witness for C4 at a concrete run: the summary header is printed and
the default target `chrome` is accounted for. -/
theorem claim_C4_witness :
    "chrome" ∈ targetsOf argsDefault ∧
    summaryHeader ∈ (run_clean argsDefault benignEnv profSt).2.log ∧
    ("chrome" ∈ (run_clean argsDefault benignEnv profSt).1.skipped ∨
      ∃ prs, ("chrome", prs) ∈ (run_clean argsDefault benignEnv profSt).1.cleaned) := by
  have hm : "chrome" ∈ targetsOf argsDefault := by decide
  exact ⟨hm, (claim_C4 argsDefault benignEnv profSt).1,
    (claim_C4 argsDefault benignEnv profSt).2.1 "chrome" hm⟩

/-! ## C9 -/

/-- A user-data root with one `Default` profile holding a History database
and a `Login Data` credentials database, plus the root-level `Local State`
file.  `benignEnv.basePath` points both browsers at this root. -/
def c9St : St :=
  ⟨[(["base"], Entry.dir),
    (["base", "Default"], Entry.dir),
    (["base", "Default", "History"], Entry.file [1]),
    (["base", "Default", "Login Data"], Entry.file [9, 9]),
    (["base", "Local State"], Entry.file [5])], [], []⟩

/-- **C9.** The two source variants are not behaviorally equivalent and
disagree on default destructiveness: on the same concrete state, the
`Clean.py` variant under default options leaves the `Login Data`
credentials database and the root-level `Local State` file untouched and
supports a dry run that mutates nothing, whereas the `Clean2.py` variant —
whose `clean_profile` and `run_cleaner` take no options at all, so there
is no dry-run or gating — unconditionally deletes every target it finds,
including `Login Data` and `Local State`. -/
theorem claim_C9 :
    lookupFS (run_clean argsDefault benignEnv c9St).2.fs ["base", "Default", "Login Data"] =
      some (Entry.file [9, 9]) ∧
    lookupFS (run_clean argsDefault benignEnv c9St).2.fs ["base", "Local State"] =
      some (Entry.file [5]) ∧
    (run_clean argsDry benignEnv c9St).2.fs = c9St.fs ∧
    lookupFS (Clean2.clean_profile benignEnv ["base", "Default"] c9St).fs
      ["base", "Default", "Login Data"] = none ∧
    lookupFS (Clean2.run_cleaner benignEnv c9St).fs ["base", "Default", "Login Data"] =
      none ∧
    lookupFS (Clean2.run_cleaner benignEnv c9St).fs ["base", "Local State"] = none := by
  decide
